import Mathlib

/-!
Verification development for the Awakener activation engine.

This file gives a shallow embedding, in Lean 4, of the parts of the
Awakener source that the specification's claims talk about:

* `activator/snapshot.py` : the snapshot delta-merge engine
  (the function named after "merge delta" in the source),
* `activator/memory.py` + `activator/loop.py` : round-counter resumption,
* `server/manager.py` : the agent manager's stop operation,
* `activator/agent.py` : JSON repair, budget hints, the round loop,
* `activator/stealth.py` + `activator/tools.py` : path cloaking, output
  filters, and the tool executor.

Python dictionaries are modelled as insertion-ordered association lists,
Python scalars as an inductive value type.  Code that can raise an
exception is modelled with `Option` or `Except` (`none` / `.error` means
the Python code raised).  Nondeterministic inputs (clock, filesystem,
subprocesses, the realpath resolver) are passed as explicit parameters.
-/

namespace Awakener

/-! ## YAML-like values (snapshot and delta documents)

Values as produced by `yaml.safe_load` in `activator/snapshot.py`.
Floating-point scalars are not modelled (none of the merge logic is
numeric); a Python `None` is `Yaml.null`.
-/

inductive Yaml where
  | str (s : String)
  | int (n : Int)
  | bool (b : Bool)
  | null
  | list (xs : List Yaml)
  | dict (fields : List (String × Yaml))

/-! Structural equality of values, modelling Python `==` on parsed YAML
data (numeric cross-type coercions such as `True == 1` are not modelled). -/

mutual

def Yaml.beq : Yaml → Yaml → Bool
  | .str a, .str b => a == b
  | .int a, .int b => a == b
  | .bool a, .bool b => a == b
  | .null, .null => true
  | .list xs, .list ys => Yaml.beqList xs ys
  | .dict xs, .dict ys => Yaml.beqFields xs ys
  | _, _ => false

def Yaml.beqList : List Yaml → List Yaml → Bool
  | [], [] => true
  | x :: xs, y :: ys => Yaml.beq x y && Yaml.beqList xs ys
  | _, _ => false

def Yaml.beqFields : List (String × Yaml) → List (String × Yaml) → Bool
  | [], [] => true
  | (k1, v1) :: xs, (k2, v2) :: ys =>
      k1 == k2 && Yaml.beq v1 v2 && Yaml.beqFields xs ys
  | _, _ => false

end

instance : BEq Yaml := ⟨Yaml.beq⟩

/-- Association-list model of a Python dict (insertion ordered). -/
abbrev YDict := List (String × Yaml)

/-- Python truthiness of a value (`bool(v)`). -/
def truthy : Yaml → Bool
  | .str s => !s.isEmpty
  | .int n => n != 0
  | .bool b => b
  | .null => false
  | .list xs => !xs.isEmpty
  | .dict fs => !fs.isEmpty

/-- Truthiness of `d.get(k)` (a missing key gives Python `None`, falsy). -/
def otruthy : Option Yaml → Bool
  | some v => truthy v
  | none => false

/-- `d.get(k)` on a Python dict. -/
def dget (d : YDict) (k : String) : Option Yaml :=
  match d.find? (fun p => p.1 == k) with
  | some p => some p.2
  | none => none

/-- `d[k] = v` on a Python dict: replace in place if the key exists
(keeping its position), otherwise append. -/
def dset (d : YDict) (k : String) (v : Yaml) : YDict :=
  if d.any (fun p => p.1 == k) then
    d.map (fun p => if p.1 == k then (k, v) else p)
  else
    d ++ [(k, v)]

/-- `k in d` on a Python dict. -/
def dhas (d : YDict) (k : String) : Bool :=
  (dget d k).isSome

/-! ## The snapshot delta merge (`_merge_delta` in `activator/snapshot.py`)

The section/key-field table `_SECTION_KEYS`, in iteration order. -/

def SECTION_KEYS : List (String × String) :=
  [("services", "name"), ("projects", "path"), ("tools", "path"),
   ("documents", "path"), ("issues", "summary")]

/-- The meta-stamping prologue of the merge: ensure `meta` exists, then set
`meta.round` and `meta.last_updated`.  `none` models the `TypeError` Python
raises when an existing `meta` value is not a dict.  `now` stands for the
formatted `datetime.now(timezone.utc)` string. -/
def stampMeta (snapshot : YDict) (roundNum : Int) (now : String) :
    Option YDict :=
  match dget snapshot "meta" with
  | none =>
      some (dset snapshot "meta"
        (.dict (dset (dset [] "round" (.int roundNum)) "last_updated" (.str now))))
  | some (.dict m) =>
      some (dset snapshot "meta"
        (.dict (dset (dset m "round" (.int roundNum)) "last_updated" (.str now))))
  | some _ => none

/-- `delta.get(key) or {}` followed by the first attribute access on the
result: a falsy value becomes the empty dict, a dict is used as is, and a
truthy non-dict raises (`AttributeError` at the first `.get` call inside
the section loop), modelled as `none`. -/
def getBlock (delta : YDict) (k : String) : Option YDict :=
  match dget delta k with
  | none => some []
  | some v =>
      if truthy v then
        match v with
        | .dict d => some d
        | _ => none
      else
        some []

/-- One section of the ADD phase: append entries from `newEntries` whose key
field is not already present.  `xs` is the current section list; returns the
new list.  `existing` is the accumulated key set (`entry.get(key_field)`,
where a missing key gives Python `None`, modelled as `Option Yaml`). -/
def addEntries (keyField : String) (xs : List Yaml)
    (existing : List (Option Yaml)) : List Yaml → List Yaml
  | [] => xs
  | e :: rest =>
      match e with
      | .dict fs =>
          let key := dget fs keyField
          if existing.contains key then
            addEntries keyField xs existing rest
          else
            addEntries keyField (xs ++ [e]) (key :: existing) rest
      | _ => addEntries keyField xs existing rest

/-- The key set harvested from an existing section list:
`{entry.get(key_field) for entry in section if isinstance(entry, dict)}`. -/
def existingKeys (keyField : String) (xs : List Yaml) : List (Option Yaml) :=
  xs.filterMap (fun e =>
    match e with
    | .dict fs => some (dget fs keyField)
    | _ => none)

/-- One section of the ADD phase applied to the whole snapshot.
Mirrors the body of the first `for section, key_field in ...` loop.
`none` models a raised exception: iterating a non-iterable section value
(`TypeError` in the set comprehension), or `.append` on a non-list
section value that has at least one appendable entry (`AttributeError`). -/
def addSection (snapshot : YDict) (addBlk : YDict)
    (sect keyField : String) : Option YDict :=
  match dget addBlk sect with
  | none => some snapshot
  | some v =>
      if !truthy v then some snapshot
      else
        match v with
        | .list newEntries =>
            let snap := if dhas snapshot sect then snapshot
                        else dset snapshot sect (.list [])
            match dget snap sect with
            | some (.list xs) =>
                some (dset snap sect
                  (.list (addEntries keyField xs (existingKeys keyField xs) newEntries)))
            | some (.str _) | some (.dict _) =>
                -- iterating gives characters / keys (no dict entries), then the
                -- first appendable entry hits `.append` on a non-list: raise
                if newEntries.any (fun e => match e with | .dict _ => true | _ => false) then
                  none
                else
                  some snap
            | some _ => none  -- set comprehension iterates a non-iterable: raise
            | none => none    -- unreachable: the section was just ensured
        | _ => some snapshot  -- `not isinstance(new_entries, list)`: skip

/-- The ADD phase over all sections. -/
def addPhase (snapshot : YDict) (addBlk : YDict) : Option YDict :=
  SECTION_KEYS.foldlM (fun snap p => addSection snap addBlk p.1 p.2) snapshot

/-- Overlay all fields of `patch` onto entry fields `fs`
(`for k, v in patch.items(): entry[k] = v`). -/
def overlay (fs : YDict) : YDict → YDict
  | [] => fs
  | (k, v) :: rest => overlay (dset fs k v) rest

/-- Apply one update patch to a section list: find the first dict entry whose
key field equals the patch's key value and overlay the patch onto it. -/
def patchList (keyField : String) (matchVal : Yaml) (patch : YDict) :
    List Yaml → List Yaml
  | [] => []
  | e :: rest =>
      match e with
      | .dict fs =>
          if dget fs keyField == some matchVal then
            .dict (overlay fs patch) :: rest
          else
            e :: patchList keyField matchVal patch rest
      | _ => e :: patchList keyField matchVal patch rest

/-- Fold a list of update patches over a section value.  `none` models the
`TypeError` from iterating a non-iterable section value; a `str` or `dict`
section value iterates into characters / keys, none of which are dict
entries, so nothing changes. -/
def applyPatches (keyField : String) (cur : Yaml) : List Yaml → Option Yaml
  | [] => some cur
  | p :: rest =>
      match p with
      | .dict patch =>
          match dget patch keyField with
          | none => applyPatches keyField cur rest        -- match_val is None: skip
          | some .null => applyPatches keyField cur rest  -- explicit null: skip
          | some matchVal =>
              match cur with
              | .list xs =>
                  applyPatches keyField (.list (patchList keyField matchVal patch xs)) rest
              | .str s => applyPatches keyField (.str s) rest    -- chars, no dict entries
              | .dict d => applyPatches keyField (.dict d) rest  -- keys, no dict entries
              | _ => none                                        -- non-iterable: raise
      | _ => applyPatches keyField cur rest               -- `not isinstance(patch, dict)`

/-- One section of the UPDATE phase. -/
def updateSection (snapshot : YDict) (updBlk : YDict)
    (sect keyField : String) : Option YDict :=
  match dget updBlk sect with
  | none => some snapshot
  | some v =>
      if !truthy v then some snapshot
      else
        match v with
        | .list patches =>
            match dget snapshot sect with
            | none => some snapshot   -- `if section not in snapshot: continue`
            | some sectionVal =>
                match applyPatches keyField sectionVal patches with
                | some cur => some (dset snapshot sect cur)
                | none => none
        | _ => some snapshot

/-- The UPDATE phase over all list sections. -/
def updatePhase (snapshot : YDict) (updBlk : YDict) : Option YDict :=
  SECTION_KEYS.foldlM (fun snap p => updateSection snap updBlk p.1 p.2) snapshot

/-- The `update.environment` shallow dict merge.  `none` models the
`AttributeError` from `.update` on an existing non-dict environment value. -/
def envPhase (snapshot : YDict) (updBlk : YDict) : Option YDict :=
  match dget updBlk "environment" with
  | none => some snapshot
  | some v =>
      if truthy v then
        match v with
        | .dict envUpd =>
            match dget snapshot "environment" with
            | none => some (dset snapshot "environment" (.dict (overlay [] envUpd)))
            | some (.dict cur) =>
                some (dset snapshot "environment" (.dict (overlay cur envUpd)))
            | some _ => none
        | _ => some snapshot    -- `isinstance(env_update, dict)` is False: skip
      else some snapshot        -- falsy: skip

/-- The truthy key values harvested from a removal list:
`{entry[key_field] for entry in removals if isinstance(entry, dict) and entry.get(key_field)}`. -/
def removeKeyVals (keyField : String) (removals : List Yaml) : List Yaml :=
  removals.filterMap (fun e =>
    match e with
    | .dict fs =>
        match dget fs keyField with
        | some v => if truthy v then some v else none
        | none => none
    | _ => none)

/-- The Python list comprehension
`[entry for entry in section if not (isinstance(entry, dict) and entry.get(key_field) in remove_keys)]`
applied to a section value.  A `str` iterates into one-character strings and
a `dict` into its keys (both become lists!); a non-iterable raises. -/
def filterComprehension (keep : Yaml → Bool) : Yaml → Option Yaml
  | .list xs => some (.list (xs.filter keep))
  | .str s => some (.list ((s.toList.map (fun c => Yaml.str (String.mk [c]))).filter keep))
  | .dict d => some (.list ((d.map (fun p => Yaml.str p.1)).filter keep))
  | _ => none

/-- Whether a value is a dict entry whose key field is in the removal set. -/
def removedEntry (keyField : String) (removeKeys : List Yaml) (e : Yaml) : Bool :=
  match e with
  | .dict fs =>
      match dget fs keyField with
      | some v => removeKeys.contains v
      | none => false          -- `entry.get(key) in remove_keys`: None is never in the (truthy-only) set
  | _ => false

/-- One section of the REMOVE phase. -/
def removeSection (snapshot : YDict) (remBlk : YDict)
    (sect keyField : String) : Option YDict :=
  match dget remBlk sect with
  | none => some snapshot
  | some v =>
      if !truthy v then some snapshot
      else
        match v with
        | .list removals =>
            match dget snapshot sect with
            | none => some snapshot
            | some sectionVal =>
                let rk := removeKeyVals keyField removals
                if rk.isEmpty then some snapshot
                else
                  match filterComprehension (fun e => !removedEntry keyField rk e) sectionVal with
                  | some filtered => some (dset snapshot sect filtered)
                  | none => none
        | _ => some snapshot

/-- The REMOVE phase over all sections. -/
def removePhase (snapshot : YDict) (remBlk : YDict) : Option YDict :=
  SECTION_KEYS.foldlM (fun snap p => removeSection snap remBlk p.1 p.2) snapshot

/-- Whether a value is a dict entry with `status == "resolved"`. -/
def isResolvedEntry (e : Yaml) : Bool :=
  match e with
  | .dict fs => dget fs "status" == some (.str "resolved")
  | _ => false

/-- The final auto-cleanup: purge entries of `issues` whose status is
resolved (the list comprehension at the end of the merge). -/
def purgePhase (snapshot : YDict) : Option YDict :=
  match dget snapshot "issues" with
  | none => some snapshot
  | some v =>
      match filterComprehension (fun e => !isResolvedEntry e) v with
      | some filtered => some (dset snapshot "issues" filtered)
      | none => none

/-- The add / update / environment / remove blocks of the merge, applied in
source order to a snapshot that has already had its meta block stamped. -/
def applyBlocks (s1 delta : YDict) : Option YDict := do
  let addBlk ← getBlock delta "add"
  let s2 ← addPhase s1 addBlk
  let updBlk ← getBlock delta "update"
  let s3 ← updatePhase s2 updBlk
  let s4 ← envPhase s3 updBlk
  let remBlk ← getBlock delta "remove"
  removePhase s4 remBlk

/-- The merge of an LLM-produced delta into the snapshot, translated from
`activator/snapshot.py`.  `old` and `delta` are the two dict arguments,
`roundNum` the round number and `now` the formatted current UTC time.
`none` models a raised exception (which the caller catches and converts
into a model-fallback / `SnapshotUpdateError`).

The initial `deepcopy(old_snapshot) if old_snapshot else ...` is the
identity on the value level (an empty dict copies to an empty dict); the
aliasing content of the deep copy is analysed separately in the heap model
at the end of this file. -/
def mergeDelta (old delta : YDict) (roundNum : Int) (now : String) :
    Option YDict :=
  match stampMeta old roundNum now with
  | none => none
  | some s1 =>
      if otruthy (dget delta "no_changes") then
        some s1
      else
        (applyBlocks s1 delta).bind purgePhase

/-- The issues section of a snapshot, as a list of entries (empty when the
section is absent or not a list). -/
def issuesOf (snapshot : YDict) : List Yaml :=
  match dget snapshot "issues" with
  | some (.list xs) => xs
  | _ => []

/-! ### Dictionary lemmas -/

theorem dget_cons (p : String × Yaml) (d : YDict) (k : String) :
    dget (p :: d) k = if p.1 == k then some p.2 else dget d k := by
  simp only [dget, List.find?]
  cases hp : (p.1 == k) <;> simp [hp]

theorem dget_dset_self (d : YDict) (k : String) (v : Yaml) :
    dget (dset d k v) k = some v := by
  unfold dset
  cases hany : d.any (fun p => p.1 == k) with
  | false =>
      simp only [Bool.false_eq_true, if_false]
      induction d with
      | nil => simp [dget_cons]
      | cons p d ih =>
          simp only [List.any_cons, Bool.or_eq_false_iff] at hany
          rw [List.cons_append, dget_cons, hany.1]
          simp only [Bool.false_eq_true, if_false]
          exact ih hany.2
  | true =>
      simp only [if_true]
      induction d with
      | nil => simp at hany
      | cons p d ih =>
          simp only [List.any_cons, Bool.or_eq_true] at hany
          cases hpk : (p.1 == k) with
          | true =>
              have hk : p.1 = k := by simpa using hpk
              simp [List.map_cons, hpk, dget_cons, hk]
          | false =>
              have hd : d.any (fun p => p.1 == k) = true := by
                rcases hany with h1 | h1
                · rw [hpk] at h1; exact absurd h1 (by simp)
                · exact h1
              simp only [List.map_cons, hpk, Bool.false_eq_true, if_false]
              rw [dget_cons, hpk]
              simp only [Bool.false_eq_true, if_false]
              exact ih hd

theorem dget_map_dset (d : YDict) (k k' : String) (v : Yaml) (h : k' ≠ k) :
    dget (d.map (fun p => if p.1 == k then (k, v) else p)) k' = dget d k' := by
  have hkk : (k == k') = false := by
    simp only [beq_eq_false_iff_ne]; exact fun hc => h hc.symm
  induction d with
  | nil => rfl
  | cons p d ih =>
      cases hpk : (p.1 == k) with
      | true =>
          have hk : p.1 = k := by simpa using hpk
          have hp' : (p.1 == k') = false := by rw [hk]; exact hkk
          simp only [List.map_cons, hpk, if_true]
          rw [dget_cons, dget_cons, hp']
          simp only [hkk, Bool.false_eq_true, if_false]
          exact ih
      | false =>
          simp only [List.map_cons, hpk, Bool.false_eq_true, if_false]
          rw [dget_cons, dget_cons]
          cases hp : (p.1 == k') with
          | true => simp [hp]
          | false => simp only [hp, Bool.false_eq_true, if_false]; exact ih

theorem dget_append_single_ne (d : YDict) (k k' : String) (v : Yaml)
    (h : k' ≠ k) : dget (d ++ [(k, v)]) k' = dget d k' := by
  have hkk : (k == k') = false := by
    simp only [beq_eq_false_iff_ne]; exact fun hc => h hc.symm
  induction d with
  | nil => simp [dget_cons, hkk, dget]
  | cons p d ih =>
      rw [List.cons_append, dget_cons, dget_cons]
      cases hp : (p.1 == k') with
      | true => simp [hp]
      | false => simp only [hp, Bool.false_eq_true, if_false]; exact ih

theorem dget_dset_ne (d : YDict) (k k' : String) (v : Yaml) (h : k' ≠ k) :
    dget (dset d k v) k' = dget d k' := by
  unfold dset
  cases hany : d.any (fun p => p.1 == k) with
  | false =>
      simp only [Bool.false_eq_true, if_false]
      exact dget_append_single_ne d k k' v h
  | true =>
      simp only [if_true]
      exact dget_map_dset d k k' v h

/-- The result of the Python filter comprehension is always a list whose
elements all satisfy the kept predicate. -/
theorem filterComprehension_mem (p : Yaml → Bool) (v w : Yaml)
    (h : filterComprehension p v = some w) :
    ∃ l, w = .list l ∧ ∀ e ∈ l, p e = true := by
  cases v with
  | list xs =>
      simp only [filterComprehension, Option.some.injEq] at h
      exact ⟨_, h.symm, fun e he => (List.mem_filter.mp he).2⟩
  | str s =>
      simp only [filterComprehension, Option.some.injEq] at h
      exact ⟨_, h.symm, fun e he => (List.mem_filter.mp he).2⟩
  | dict d =>
      simp only [filterComprehension, Option.some.injEq] at h
      exact ⟨_, h.symm, fun e he => (List.mem_filter.mp he).2⟩
  | int n => simp [filterComprehension] at h
  | bool b => simp [filterComprehension] at h
  | null => simp [filterComprehension] at h

/-- After the purge, the issues section holds no resolved entry. -/
theorem purgePhase_no_resolved (t s : YDict) (h : purgePhase t = some s) :
    ∀ e ∈ issuesOf s, isResolvedEntry e = false := by
  unfold purgePhase at h
  split at h
  · next hg =>
      cases h
      intro e he
      simp only [issuesOf, hg] at he
      exact absurd he (List.not_mem_nil e)
  · next v hg =>
      split at h
      · next w hf =>
          cases h
          obtain ⟨l, rfl, hall⟩ := filterComprehension_mem _ _ _ hf
          intro e he
          simp only [issuesOf, dget_dset_self] at he
          have := hall e he
          simpa using this
      · exact absurd h (by simp)

/-! ### Claim C1 — resolved-issue purge -/

/-- A starting snapshot holding one already-resolved issue. -/
def c1old : YDict :=
  [("issues", .list [.dict [("summary", .str "X"), ("status", .str "resolved")]])]

/-- An empty delta (`no_changes: true`). -/
def c1delta : YDict := [("no_changes", .bool true)]

/-- C1 counterexample: the claim says the merged snapshot contains no issue
entry with status `resolved` for every starting snapshot and every delta,
"including when the delta carries `no_changes: true`".  At the concrete
starting snapshot `c1old` (holding a resolved issue) and the delta
`\x7bno_changes: true\x7d`, the merge short-circuits after stamping `meta`
and returns the resolved issue unpurged. -/
theorem mergeDelta_resolved_persists_under_no_changes :
    (mergeDelta c1old c1delta 7 "2026-02-10 00:00:00 UTC").map
      (fun s => (issuesOf s).any isResolvedEntry) = some true := rfl

/-- C1 (amended): for every starting snapshot and every delta whose
`no_changes` field is not truthy, the snapshot produced by the merge
contains no entry in the issues section whose status field equals
"resolved" (the purge runs on every merge that does not short-circuit;
a delta carrying a truthy `no_changes` skips it). -/
theorem mergeDelta_purges_resolved (old delta : YDict) (r : Int)
    (now : String) (s : YDict)
    (hnc : otruthy (dget delta "no_changes") = false)
    (h : mergeDelta old delta r now = some s) :
    ∀ e ∈ issuesOf s, isResolvedEntry e = false := by
  unfold mergeDelta at h
  split at h
  · exact absurd h (by simp)
  · rw [hnc] at h
    simp only [Bool.false_eq_true, if_false] at h
    rcases Option.bind_eq_some.mp h with ⟨s5, _, h5⟩
    exact purgePhase_no_resolved s5 s h5

/-- C1 witness: the amended theorem applied to the concrete snapshot
`c1old` and the empty dict delta (no `no_changes` key). -/
theorem mergeDelta_purges_resolved_witness :
    otruthy (dget ([] : YDict) "no_changes") = false ∧
    ∀ e ∈ issuesOf [("issues", Yaml.list []),
        ("meta", Yaml.dict [("round", Yaml.int 7),
          ("last_updated", Yaml.str "2026-02-10 00:00:00 UTC")])],
      isResolvedEntry e = false :=
  ⟨rfl, mergeDelta_purges_resolved c1old [] 7 "2026-02-10 00:00:00 UTC" _ rfl rfl⟩

/-! ### Claim C7 — empty delta is the identity up to meta stamping -/

/-- The meta block of a snapshot (empty when absent). -/
def metaOf (old : YDict) : YDict :=
  match dget old "meta" with
  | some (.dict m) => m
  | _ => []

/-- C7: applying an empty delta (truthy `no_changes`) to any snapshot whose
`meta` block is absent or a dict produces a snapshot equal to the input in
every section and field, except that `meta.round` is set to the current
round number and `meta.last_updated` is restamped with the current time. -/
theorem mergeDelta_no_changes_frame (old delta : YDict) (r : Int) (now : String)
    (hnc : otruthy (dget delta "no_changes") = true)
    (hmeta : dget old "meta" = none ∨ ∃ m, dget old "meta" = some (.dict m)) :
    ∃ s, mergeDelta old delta r now = some s ∧
      (∀ k, k ≠ "meta" → dget s k = dget old k) ∧
      ∃ m', dget s "meta" = some (.dict m') ∧
        dget m' "round" = some (.int r) ∧
        dget m' "last_updated" = some (.str now) ∧
        (∀ k, k ≠ "round" → k ≠ "last_updated" → dget m' k = dget (metaOf old) k) := by
  have hrl : "round" ≠ "last_updated" := by decide
  rcases hmeta with hm | ⟨m, hm⟩
  · refine ⟨dset old "meta"
      (.dict (dset (dset [] "round" (.int r)) "last_updated" (.str now))), ?_, ?_, ?_⟩
    · unfold mergeDelta stampMeta
      rw [hm]
      simp [hnc]
    · intro k hk
      exact dget_dset_ne old "meta" k _ hk
    · refine ⟨_, dget_dset_self _ _ _, ?_, dget_dset_self _ _ _, ?_⟩
      · rw [dget_dset_ne _ _ _ _ hrl]
        exact dget_dset_self _ _ _
      · intro k hk1 hk2
        rw [dget_dset_ne _ _ _ _ hk2, dget_dset_ne _ _ _ _ hk1]
        simp [metaOf, hm]
  · refine ⟨dset old "meta"
      (.dict (dset (dset m "round" (.int r)) "last_updated" (.str now))), ?_, ?_, ?_⟩
    · unfold mergeDelta stampMeta
      rw [hm]
      simp [hnc]
    · intro k hk
      exact dget_dset_ne old "meta" k _ hk
    · refine ⟨_, dget_dset_self _ _ _, ?_, dget_dset_self _ _ _, ?_⟩
      · rw [dget_dset_ne _ _ _ _ hrl]
        exact dget_dset_self _ _ _
      · intro k hk1 hk2
        rw [dget_dset_ne _ _ _ _ hk2, dget_dset_ne _ _ _ _ hk1]
        simp [metaOf, hm]

/-- C7 witness: the frame theorem applied to a concrete snapshot with an
existing meta block and extra sections, under the delta `\x7bno_changes: true\x7d`. -/
theorem mergeDelta_no_changes_frame_witness :
    otruthy (dget c1delta "no_changes") = true ∧
    (dget [("services", Yaml.list [Yaml.dict [("name", Yaml.str "web")]]),
           ("meta", Yaml.dict [("round", Yaml.int 41), ("note", Yaml.str "x")])] "meta"
       = none ∨
     ∃ m, dget [("services", Yaml.list [Yaml.dict [("name", Yaml.str "web")]]),
           ("meta", Yaml.dict [("round", Yaml.int 41), ("note", Yaml.str "x")])] "meta"
       = some (.dict m)) ∧
    (∃ s, mergeDelta
        [("services", Yaml.list [Yaml.dict [("name", Yaml.str "web")]]),
         ("meta", Yaml.dict [("round", Yaml.int 41), ("note", Yaml.str "x")])]
        c1delta 42 "2026-02-10 00:00:00 UTC" = some s ∧
      (∀ k, k ≠ "meta" → dget s k = dget
        [("services", Yaml.list [Yaml.dict [("name", Yaml.str "web")]]),
         ("meta", Yaml.dict [("round", Yaml.int 41), ("note", Yaml.str "x")])] k) ∧
      ∃ m', dget s "meta" = some (.dict m') ∧
        dget m' "round" = some (.int 42) ∧
        dget m' "last_updated" = some (.str "2026-02-10 00:00:00 UTC") ∧
        (∀ k, k ≠ "round" → k ≠ "last_updated" → dget m' k = dget (metaOf
          [("services", Yaml.list [Yaml.dict [("name", Yaml.str "web")]]),
           ("meta", Yaml.dict [("round", Yaml.int 41), ("note", Yaml.str "x")])]) k)) :=
  ⟨rfl, Or.inr ⟨_, rfl⟩,
    mergeDelta_no_changes_frame _ c1delta 42 "2026-02-10 00:00:00 UTC" rfl
      (Or.inr ⟨_, rfl⟩)⟩

/-! ## Round counter resumption (`activator/memory.py`, `activator/loop.py`)

An entry of a notebook or timeline JSONL file is modelled by its round
number: `e.get("round", 0)` with an absent key giving 0.  A list of entries
stands for the concatenation of all per-day files (plus the legacy single
file), in the order the memory manager reads them. -/

structure JsonlEntry where
  round : Int

/-- `max(...)` over a nonempty list of Python ints. -/
def maxRound (x : Int) (xs : List Int) : Int := xs.foldl max x

/-- `MemoryManager._get_last_timeline_round`: highest round number across
all timeline entries, or 0 when there are none. -/
def getLastTimelineRound (timeline : List JsonlEntry) : Int :=
  match timeline.map (fun e => e.round) with
  | [] => 0
  | x :: xs => maxRound x xs

/-- `MemoryManager.get_last_round_number`: when the notebook is empty, the
timeline maximum; otherwise the maximum of the notebook maximum and the
timeline maximum. -/
def getLastRoundNumber (notebook timeline : List JsonlEntry) : Int :=
  match notebook.map (fun e => e.round) with
  | [] => getLastTimelineRound timeline
  | x :: xs => max (maxRound x xs) (getLastTimelineRound timeline)

/-- `run_activation_loop`: the round number for the first round after
startup (`memory.get_last_round_number() + 1`). -/
def startupRound (notebook timeline : List JsonlEntry) : Int :=
  getLastRoundNumber notebook timeline + 1

/-- C2 counterexample: the claim says the next round number at startup
equals the maximum round across all timeline files plus one.  With one
notebook entry at round 50 and the last timeline entry at round 42, the
scheduler resumes at round 51, not 43: `get_last_round_number` also folds
in the notebook's maximum round. -/
theorem startupRound_not_timeline_only :
    startupRound [⟨50⟩] [⟨42⟩] = 51 ∧
    getLastTimelineRound [⟨42⟩] + 1 = 43 ∧
    startupRound [⟨50⟩] [⟨42⟩] ≠ getLastTimelineRound [⟨42⟩] + 1 :=
  ⟨rfl, rfl, by decide⟩

/-- C2 (amended): at startup the next round number equals
`max(max notebook round, max timeline round) + 1`; whenever the notebook
is empty or its maximum round does not exceed the timeline's maximum —
in particular after a clean exit, which always records a notebook entry
for the round of each timeline entry — this equals the maximum round
observed across all timeline files plus one, so a run whose last timeline
entry has round 42 resumes at round 43. -/
theorem startupRound_eq_timeline_succ (notebook timeline : List JsonlEntry)
    (h : notebook = [] ∨
      ∃ x xs, notebook.map (fun e => e.round) = x :: xs ∧
        maxRound x xs ≤ getLastTimelineRound timeline) :
    startupRound notebook timeline = getLastTimelineRound timeline + 1 := by
  rcases h with h | ⟨x, xs, hmap, hle⟩
  · simp [startupRound, getLastRoundNumber, h]
  · simp only [startupRound, getLastRoundNumber, hmap]
    omega

/-- C2 witness: the amended theorem at a notebook and timeline that both
end at round 42 — the loop resumes at round 43. -/
theorem startupRound_eq_timeline_succ_witness :
    (([⟨42⟩] : List JsonlEntry) = [] ∨
      ∃ x xs, ([⟨42⟩] : List JsonlEntry).map (fun e => e.round) = x :: xs ∧
        maxRound x xs ≤ getLastTimelineRound [⟨42⟩]) ∧
    startupRound [⟨42⟩] [⟨42⟩] = getLastTimelineRound [⟨42⟩] + 1 := by
  refine ⟨Or.inr ⟨42, [], rfl, by decide⟩, ?_⟩
  exact startupRound_eq_timeline_succ [⟨42⟩] [⟨42⟩]
    (Or.inr ⟨42, [], rfl, by decide⟩)

/-! ## The agent manager's stop operation (`server/manager.py`)

Only the fields `stop` touches are modelled: the state string and whether
the cooperative stop event has been set.  Broadcasts and the returned
status dict do not affect them. -/

inductive AMState where
  | idle | running | waiting | stopping | error
deriving DecidableEq

structure ManagerSt where
  state : AMState
  stopEventSet : Bool
deriving DecidableEq

/-- `AgentManager.is_running`: state is `running` or `waiting`. -/
def isRunning (m : ManagerSt) : Bool :=
  m.state == .running || m.state == .waiting

/-- `AgentManager.stop`: when not running, set state to `idle` and return;
otherwise set state to `stopping` and set the cooperative stop event. -/
def stopOp (m : ManagerSt) : ManagerSt :=
  if !isRunning m then
    ⟨.idle, m.stopEventSet⟩
  else
    ⟨.stopping, true⟩

/-- C3 counterexample: the claim says a second `stop()` before the worker
has exited leaves the run state and the cancel token exactly as the first
invocation left them.  From the `running` state, the first `stop()` leaves
state `stopping` with the token set, but the second `stop()` moves the
state to `idle` (its not-running branch), so the state differs. -/
theorem stopOp_not_state_idempotent :
    (stopOp ⟨.running, false⟩).state = .stopping ∧
    (stopOp (stopOp ⟨.running, false⟩)).state = .idle ∧
    stopOp (stopOp ⟨.running, false⟩) ≠ stopOp ⟨.running, false⟩ := by
  refine ⟨rfl, rfl, by decide⟩

/-- C3 (amended): from a running or waiting state, `stop()` sets the
cooperative cancel token and transitions the run state to `stopping`.  A
second `stop()` before the worker has exited leaves the cancel token
exactly as the first invocation left it (set), but transitions the run
state from `stopping` to `idle`; from the third invocation on, `stop()`
is a no-op (idempotent). -/
theorem stopOp_second_call (m : ManagerSt) (h : isRunning m = true) :
    (stopOp m).state = .stopping ∧
    (stopOp m).stopEventSet = true ∧
    (stopOp (stopOp m)).stopEventSet = (stopOp m).stopEventSet ∧
    (stopOp (stopOp m)).state = .idle ∧
    stopOp (stopOp (stopOp m)) = stopOp (stopOp m) := by
  simp [stopOp, isRunning] at h ⊢
  rcases h with h | h <;> simp [h, stopOp, isRunning]

/-- C3 witness: the amended theorem applied to the `running` state with the
token initially clear. -/
theorem stopOp_second_call_witness :
    isRunning ⟨.running, false⟩ = true ∧
    ((stopOp ⟨.running, false⟩).state = .stopping ∧
     (stopOp ⟨.running, false⟩).stopEventSet = true ∧
     (stopOp (stopOp ⟨.running, false⟩)).stopEventSet
        = (stopOp ⟨.running, false⟩).stopEventSet ∧
     (stopOp (stopOp ⟨.running, false⟩)).state = .idle ∧
     stopOp (stopOp (stopOp ⟨.running, false⟩)) = stopOp (stopOp ⟨.running, false⟩)) :=
  ⟨rfl, stopOp_second_call ⟨.running, false⟩ rfl⟩

/-! ## JSON values and `json.loads` (used by the tool loop)

JSON values as produced by Python's `json.loads` on tool-call arguments.
Floating-point numbers and the non-standard `NaN` / `Infinity` literals are
not modelled (no claim involves them). -/

inductive JVal where
  | str (s : String)
  | num (n : Int)
  | bool (b : Bool)
  | null
  | arr (xs : List JVal)
  | obj (fields : List (String × JVal))

/- Named character constants (kept out of string literals). -/

def chQuote : Char := Char.ofNat 34
def chBackslash : Char := Char.ofNat 92
def chSlash : Char := '/'
def chLBrace : Char := Char.ofNat 123
def chRBrace : Char := Char.ofNat 125
def chLBrack : Char := Char.ofNat 91
def chRBrack : Char := Char.ofNat 93

/-- JSON insignificant whitespace. -/
def isJsonWs (c : Char) : Bool :=
  c = ' ' || c = '\t' || c = '\n' || c = '\r'

def skipWs : List Char → List Char
  | [] => []
  | c :: cs => if isJsonWs c then skipWs cs else c :: cs
  termination_by structural cs => cs

def hexVal (c : Char) : Option Nat :=
  if c.isDigit then some (c.toNat - 48)
  else if 'a' ≤ c && c ≤ 'f' then some (c.toNat - 87)
  else if 'A' ≤ c && c ≤ 'F' then some (c.toNat - 55)
  else none

/-- The body of a JSON string, after the opening quote.  Faithful to the
strict `json.loads` behaviour: an invalid escape, an unescaped control
character, or a missing closing quote is a parse error. -/
def parseStrBody : List Char → List Char → Option (String × List Char)
  | [], _ => none
  | c :: rest, acc =>
      if c = chQuote then some (String.mk acc.reverse, rest)
      else if c = chBackslash then
        match rest with
        | [] => none
        | d :: rest' =>
            if d = chQuote then parseStrBody rest' (chQuote :: acc)
            else if d = chBackslash then parseStrBody rest' (chBackslash :: acc)
            else if d = chSlash then parseStrBody rest' (chSlash :: acc)
            else if d = 'b' then parseStrBody rest' (Char.ofNat 8 :: acc)
            else if d = 'f' then parseStrBody rest' (Char.ofNat 12 :: acc)
            else if d = 'n' then parseStrBody rest' ('\n' :: acc)
            else if d = 'r' then parseStrBody rest' ('\r' :: acc)
            else if d = 't' then parseStrBody rest' ('\t' :: acc)
            else if d = 'u' then
              match rest' with
              | h1 :: h2 :: h3 :: h4 :: rest2 =>
                  match hexVal h1, hexVal h2, hexVal h3, hexVal h4 with
                  | some a, some b, some c2, some d2 =>
                      parseStrBody rest2 (Char.ofNat (((a*16+b)*16+c2)*16+d2) :: acc)
                  | _, _, _, _ => none
              | _ => none
            else none
      else if c.toNat < 32 then none
      else parseStrBody rest (c :: acc)
  termination_by structural cs acc => cs

/-- Match a literal character sequence. -/
def stripLit (lit : List Char) (cs : List Char) : Option (List Char) :=
  if lit.isPrefixOf cs then some (cs.drop lit.length) else none

/-- A JSON number.  Only integers are modelled; a fractional part or an
exponent makes the model parser fail where Python would parse a float. -/
def parseNumber (cs : List Char) : Option (JVal × List Char) :=
  let (neg, cs1) :=
    match cs with
    | c :: rest => if c = '-' then (true, rest) else (false, cs)
    | [] => (false, cs)
  let digits := cs1.takeWhile Char.isDigit
  let rest := cs1.dropWhile Char.isDigit
  if digits.isEmpty then none
  else if digits.length > 1 && digits.head? = some '0' then none
  else
    match rest with
    | c :: _ =>
        if c = '.' || c = 'e' || c = 'E' then none
        else
          let v : Int := digits.foldl (fun a c => a * 10 + (Int.ofNat (c.toNat - 48))) 0
          some (.num (if neg then -v else v), rest)
    | [] =>
        let v : Int := digits.foldl (fun a c => a * 10 + (Int.ofNat (c.toNat - 48))) 0
        some (.num (if neg then -v else v), rest)

mutual

/-- A JSON value.  `fuel` strictly exceeds the number of characters still to
be consumed, so `jsonLoads` below never runs out on well-formed input. -/
def parseValue : Nat → List Char → Option (JVal × List Char)
  | 0, _ => none
  | fuel + 1, cs =>
      match skipWs cs with
      | [] => none
      | c :: rest =>
          if c = chQuote then
            match parseStrBody rest [] with
            | some (s, r) => some (.str s, r)
            | none => none
          else if c = chLBrace then
            match skipWs rest with
            | d :: rest' =>
                if d = chRBrace then some (.obj [], rest')
                else parseMembers fuel [] (skipWs rest)
            | [] => none
          else if c = chLBrack then
            match skipWs rest with
            | d :: rest' =>
                if d = chRBrack then some (.arr [], rest')
                else parseItems fuel [] (skipWs rest)
            | [] => none
          else if c = 't' then
            (stripLit ['r', 'u', 'e'] rest).map (fun r => (.bool true, r))
          else if c = 'f' then
            (stripLit ['a', 'l', 's', 'e'] rest).map (fun r => (.bool false, r))
          else if c = 'n' then
            (stripLit ['u', 'l', 'l'] rest).map (fun r => (.null, r))
          else if c = '-' || c.isDigit then
            parseNumber (c :: rest)
          else none
  termination_by structural fuel cs => fuel

/-- Object members, positioned at the start of a key. -/
def parseMembers : Nat → List (String × JVal) → List Char →
    Option (JVal × List Char)
  | 0, _, _ => none
  | fuel + 1, acc, cs =>
      match cs with
      | c :: rest =>
          if c = chQuote then
            match parseStrBody rest [] with
            | some (k, r1) =>
                match skipWs r1 with
                | d :: r2 =>
                    if d = ':' then
                      match parseValue fuel r2 with
                      | some (v, r3) =>
                          match skipWs r3 with
                          | e :: r4 =>
                              if e = ',' then
                                parseMembers fuel (acc ++ [(k, v)]) (skipWs r4)
                              else if e = chRBrace then
                                some (.obj (acc ++ [(k, v)]), r4)
                              else none
                          | [] => none
                      | none => none
                    else none
                | [] => none
            | none => none
          else none
      | [] => none
  termination_by structural fuel acc cs => fuel

/-- Array items, positioned at the start of an item. -/
def parseItems : Nat → List JVal → List Char → Option (JVal × List Char)
  | 0, _, _ => none
  | fuel + 1, acc, cs =>
      match parseValue fuel cs with
      | some (v, r1) =>
          match skipWs r1 with
          | e :: r2 =>
              if e = ',' then parseItems fuel (acc ++ [v]) (skipWs r2)
              else if e = chRBrack then some (.arr (acc ++ [v]), r2)
              else none
          | [] => none
      | none => none
  termination_by structural fuel acc cs => fuel

end

/-- `json.loads`: parse one JSON document, requiring the whole input to be
consumed (up to trailing whitespace).  `none` models `JSONDecodeError`. -/
def jsonLoads (s : String) : Option JVal :=
  match parseValue (s.length + 2) s.toList with
  | some (v, rest) => if (skipWs rest).isEmpty then some v else none
  | none => none

/-! ## JSON repair (`_repair_json` in `activator/agent.py`) -/

/-- Python whitespace as stripped by `str.strip` / `str.rstrip`. -/
def isPyWs (c : Char) : Bool :=
  c = ' ' || c = '\t' || c = '\n' || c = '\r' ||
  c = Char.ofNat 11 || c = Char.ofNat 12

def rstripChars (cs : List Char) : List Char :=
  (cs.reverse.dropWhile isPyWs).reverse

def stripChars (cs : List Char) : List Char :=
  rstripChars (cs.dropWhile isPyWs)

/-- Whether a character is a valid JSON escape successor: the regex class
complementary to the one replaced by repair attempt 1. -/
def validEscapeChar (c : Char) : Bool :=
  c = chQuote || c = chBackslash || c = chSlash ||
  c = 'b' || c = 'f' || c = 'n' || c = 'r' || c = 't' || c = 'u'

/-- Repair attempt 1: the substitution replacing a backslash followed by an
invalid escape character with the bare character (left-to-right,
non-overlapping, exactly like the regex substitution in the source). -/
def fixEscapes : List Char → List Char
  | [] => []
  | [c] => [c]
  | c :: d :: rest =>
      if c = chBackslash then
        if validEscapeChar d then c :: fixEscapes (d :: rest)
        else d :: fixEscapes rest
      else c :: fixEscapes (d :: rest)
  termination_by structural cs => cs

/-- The quote-scanning loop of repair attempt 2, which decides whether the
string ends inside an unclosed JSON string.  The cases follow the loop
body for the two values of `in_string`: an escape character inside a
string skips the next character (`i += 2`), a quote toggles the state. -/
def scanInString : List Char → Bool → Bool
  | [], b => b
  | c :: rest, true =>
      if c = chBackslash then
        match rest with
        | [] => true
        | _ :: rest' => scanInString rest' true
      else if c = chQuote then scanInString rest false
      else scanInString rest true
  | c :: rest, false =>
      if c = chQuote then scanInString rest true
      else scanInString rest false
  termination_by structural cs b => cs

/-- Repair attempt 2: right-strip, close an unclosed string quote, then
append the missing closing brackets and braces (brackets first, counts
taken over the whole text including any quote just added). -/
def closeTruncated (fixed : String) : String :=
  let r0 := rstripChars fixed.toList
  let r1 := if scanInString r0 false then r0 ++ [chQuote] else r0
  let openBraces : Int := (r1.count chLBrace : Int) - (r1.count chRBrace : Int)
  let openBrackets : Int := (r1.count chLBrack : Int) - (r1.count chRBrack : Int)
  let r2 := r1 ++ List.replicate (max 0 openBrackets).toNat chRBrack
  let r3 := r2 ++ List.replicate (max 0 openBraces).toNat chRBrace
  String.mk r3

/-- The capture of the value regexes of repair attempt 3, positioned right
after the opening quote of the value: a maximal sequence of
non-quote-non-backslash characters and escape pairs.  When `requireClose`
is true the pattern also demands a closing quote (the `path` and `command`
regexes); otherwise the capture alone suffices (the `content` regex). -/
def captureValue (requireClose : Bool) : List Char → List Char →
    Option (List Char)
  | [], acc => if requireClose then none else some acc.reverse
  | c :: rest, acc =>
      if c = chQuote then some acc.reverse
      else if c = chBackslash then
        match rest with
        | [] => if requireClose then none else some acc.reverse
        | d :: rest' => captureValue requireClose rest' (d :: c :: acc)
      else captureValue requireClose rest (c :: acc)
  termination_by structural cs acc => cs

/-- Python regex whitespace class. -/
def isReWs (c : Char) : Bool := isPyWs c

/-- Match the middle part of the attempt-3 patterns:
whitespace, a colon, whitespace, then an opening quote. -/
def wsColonQuote (cs : List Char) : Option (List Char) :=
  match cs.dropWhile isReWs with
  | c :: rest =>
      if c = ':' then
        match rest.dropWhile isReWs with
        | d :: rest' => if d = chQuote then some rest' else none
        | [] => none
      else none
  | [] => none

/-- Try the attempt-3 key pattern at the current position. -/
def tryKeyHere (key : List Char) (requireClose : Bool) (cs : List Char) :
    Option (List Char) :=
  match stripLit (chQuote :: key ++ [chQuote]) cs with
  | none => none
  | some rest =>
      match wsColonQuote rest with
      | none => none
      | some rest2 => captureValue requireClose rest2 []

/-- `re.search` for the attempt-3 key pattern: try every start position,
left to right. -/
def searchKeyStr (key : List Char) (requireClose : Bool) :
    List Char → Option (List Char)
  | [] => none
  | c :: rest =>
      match tryKeyHere key requireClose (c :: rest) with
      | some r => some r
      | none => searchKeyStr key requireClose rest
  termination_by structural cs => cs

/-- Match `"append"` whitespace `:` whitespace then `true` or `false`. -/
def tryBoolHere (key : List Char) (cs : List Char) : Option Bool :=
  match stripLit (chQuote :: key ++ [chQuote]) cs with
  | none => none
  | some rest =>
      match rest.dropWhile isReWs with
      | c :: rest' =>
          if c = ':' then
            match rest'.dropWhile isReWs with
            | cs2 =>
                if (['t', 'r', 'u', 'e'].isPrefixOf cs2) then some true
                else if (['f', 'a', 'l', 's', 'e'].isPrefixOf cs2) then some false
                else none
          else none
      | [] => none

def searchBool (key : List Char) : List Char → Option Bool
  | [] => none
  | c :: rest =>
      match tryBoolHere key (c :: rest) with
      | some b => some b
      | none => searchBool key rest
  termination_by structural cs => cs

/-- The `unicode_escape` decoding applied to captured values in attempt 3.
The common escapes are modelled; an unknown escape is kept literally, a
truncated escape at the end of the string becomes the replacement
character (`errors="replace"`).  The byte-level mangling of non-ASCII
text by `.encode()` is not modelled. -/
def unicodeUnescape : List Char → List Char
  | [] => []
  | c :: rest =>
      if c = chBackslash then
        match rest with
        | [] => [Char.ofNat 0xFFFD]
        | d :: rest' =>
            if d = 'n' then '\n' :: unicodeUnescape rest'
            else if d = 't' then '\t' :: unicodeUnescape rest'
            else if d = 'r' then '\r' :: unicodeUnescape rest'
            else if d = 'b' then Char.ofNat 8 :: unicodeUnescape rest'
            else if d = 'f' then Char.ofNat 12 :: unicodeUnescape rest'
            else if d = 'v' then Char.ofNat 11 :: unicodeUnescape rest'
            else if d = 'a' then Char.ofNat 7 :: unicodeUnescape rest'
            else if d = chBackslash then chBackslash :: unicodeUnescape rest'
            else if d = chQuote then chQuote :: unicodeUnescape rest'
            else if d = Char.ofNat 39 then Char.ofNat 39 :: unicodeUnescape rest'
            else if d = 'x' then
              match rest' with
              | h1 :: h2 :: rest2 =>
                  match hexVal h1, hexVal h2 with
                  | some a, some b => Char.ofNat (a * 16 + b) :: unicodeUnescape rest2
                  | _, _ => Char.ofNat 0xFFFD :: unicodeUnescape rest2
              | _ => [Char.ofNat 0xFFFD]
            else if d = 'u' then
              match rest' with
              | h1 :: h2 :: h3 :: h4 :: rest2 =>
                  match hexVal h1, hexVal h2, hexVal h3, hexVal h4 with
                  | some a, some b, some c2, some d2 =>
                      Char.ofNat (((a*16+b)*16+c2)*16+d2) :: unicodeUnescape rest2
                  | _, _, _, _ => Char.ofNat 0xFFFD :: unicodeUnescape rest2
              | _ => [Char.ofNat 0xFFFD]
            else chBackslash :: d :: unicodeUnescape rest'
      else c :: unicodeUnescape rest
  termination_by structural cs => cs

/-- Repair attempt 3: regex extraction of known fields from the raw text,
in source order (`path` + `content` with optional `append`, then
`command`, then bare `content`). -/
def extractFields (raw : String) : Option JVal :=
  let cs := raw.toList
  let pathM := searchKeyStr ['p', 'a', 't', 'h'] true cs
  let contentM := searchKeyStr ['c', 'o', 'n', 't', 'e', 'n', 't'] false cs
  match pathM, contentM with
  | some p, some c =>
      let base := [("path", JVal.str (String.mk (unicodeUnescape p))),
                   ("content", JVal.str (String.mk (unicodeUnescape c)))]
      match searchBool ['a', 'p', 'p', 'e', 'n', 'd'] cs with
      | some b => some (.obj (base ++ [("append", JVal.bool b)]))
      | none => some (.obj base)
  | _, _ =>
      match searchKeyStr ['c', 'o', 'm', 'm', 'a', 'n', 'd'] true cs with
      | some cmd => some (.obj [("command", .str (String.mk (unicodeUnescape cmd)))])
      | none =>
          match contentM, pathM with
          | some c, none =>
              some (.obj [("content", .str (String.mk (unicodeUnescape c)))])
          | _, _ => none

/-- `_repair_json` from `activator/agent.py`: fix invalid escapes, then
close truncated quotes/brackets/braces, then fall back to regex field
extraction.  `none` means every attempt failed. -/
def repairJson (raw : String) : Option JVal :=
  if raw.isEmpty || (stripChars raw.toList).isEmpty then none
  else
    let fixed := String.mk (fixEscapes raw.toList)
    match jsonLoads fixed with
    | some v => some v
    | none =>
        match jsonLoads (closeTruncated fixed) with
        | some v => some v
        | none => extractFields raw

/-! ### Claim C8 — repair of truncated tool arguments -/

/-- The truncated tool-argument input of the claim: an object whose final
quote and closing brace are missing. -/
def c8raw : String := "\x7b\"path\": \"/a\", \"content\": \"hello"

set_option maxHeartbeats 2000000 in
/-- C8: the raw input does not parse; repair attempt 2 closes the unclosed
quote and the unclosed brace, and the repair function returns the parsed
object with `path = "/a"` and `content = "hello"`. -/
theorem repairJson_truncated_write_args :
    jsonLoads c8raw = none ∧
    closeTruncated (String.mk (fixEscapes c8raw.toList)) =
      "\x7b\"path\": \"/a\", \"content\": \"hello\"\x7d" ∧
    repairJson c8raw =
      some (.obj [("path", JVal.str "/a"), ("content", JVal.str "hello")]) :=
  ⟨rfl, rfl, rfl⟩

/-! ## String helpers shared by the agent core and the stealth layer

Character-list implementations of the Python string operations the
embedded code uses, so that closed theorems evaluate. -/

/-- Prefix test on strings (`str.startswith`), by character list. -/
def strStartsWith (s pre : String) : Bool := pre.toList.isPrefixOf s.toList

/-- Suffix test on strings (`str.endswith`), by character list. -/
def strEndsWith (s suf : String) : Bool := suf.toList.isSuffixOf s.toList

/-- Character take (`s[:n]`), by character list. -/
def strTake (s : String) (n : Nat) : String := String.mk (s.toList.take n)

/-- ASCII lower-casing (`str.lower`), by character list. -/
def strToLower (s : String) : String := String.mk (s.toList.map Char.toLower)

/-- Split a character list at every character satisfying `p`. -/
def splitOnPred (p : Char → Bool) : List Char → List (List Char)
  | [] => [[]]
  | c :: rest =>
      let r := splitOnPred p rest
      if p c then [] :: r
      else
        match r with
        | [] => [[c]]
        | g :: gs => (c :: g) :: gs

/-- Python `str.strip()`. -/
def pyStripStr (s : String) : String := String.mk (stripChars s.toList)

/-- Python `str.split()` with no argument: whitespace runs, no empties. -/
def pySplitWs (s : String) : List String :=
  ((splitOnPred isPyWs s.toList).filter (fun g => g ≠ [])).map String.mk

/-- Split a character list on newlines (the groups between newline
characters; always nonempty, like `str.split`). -/
def splitNL : List Char → List (List Char)
  | [] => [[]]
  | c :: rest =>
      let r := splitNL rest
      if c = '\n' then [] :: r
      else
        match r with
        | [] => [[c]]
        | g :: gs => (c :: g) :: gs

/-- Join character groups with newlines (`"\n".join`). -/
def joinNL : List (List Char) → List Char
  | [] => []
  | [g] => g
  | g :: g2 :: gs => g ++ '\n' :: joinNL (g2 :: gs)

/-- Python `str.splitlines()` for newline-separated text (the `\r`, `\v`,
`\f` line terminators are not modelled): the newline groups, without the
empty group a trailing newline produces. -/
def splitLines (s : String) : List String :=
  if s = "" then []
  else
    let parts := splitNL s.toList
    (if parts.getLast? = some [] then parts.dropLast else parts).map String.mk

/-- `"\n".join(...)`. -/
def joinLines (ls : List String) : String :=
  String.mk (joinNL (ls.map String.toList))

/-! ## Budget hints and the round loop (`activator/agent.py`)

Counters are `Int`, as in Python. -/

/-- `_budget_hint`: the deterministic hint string prepended to tool
results, parameterised by the used count and the normal limit. -/
def budgetHint (used normalLimit : Int) : String :=
  let remaining := normalLimit - used
  if used ≥ normalLimit then
    s!"[System: Tool budget exhausted ({used}/{normalLimit}). Please stop calling tools and let the round end.]"
  else if remaining ≤ 3 then
    s!"[System: {used}/{normalLimit} tools used, only {remaining} left! Wrap up now.]"
  else if remaining ≤ 8 then
    s!"[System: {used}/{normalLimit} tools used, {remaining} remaining. Start wrapping up.]"
  else
    s!"[System: {used}/{normalLimit} tools used, {remaining} remaining]"

/-- The four severity bands of the budget hint, in the branch order of
`_budget_hint`. -/
inductive BudgetBand where
  | ample | advise | warn | exhausted
deriving DecidableEq

/-- Which branch of `_budget_hint` fires. -/
def budgetBand (used normalLimit : Int) : BudgetBand :=
  if used ≥ normalLimit then .exhausted
  else if normalLimit - used ≤ 3 then .warn
  else if normalLimit - used ≤ 8 then .advise
  else .ample

/-- The hint text of each band. -/
def bandMessage : BudgetBand → Int → Int → String
  | .exhausted, used, normalLimit =>
      s!"[System: Tool budget exhausted ({used}/{normalLimit}). Please stop calling tools and let the round end.]"
  | .warn, used, normalLimit =>
      let remaining := normalLimit - used
      s!"[System: {used}/{normalLimit} tools used, only {remaining} left! Wrap up now.]"
  | .advise, used, normalLimit =>
      let remaining := normalLimit - used
      s!"[System: {used}/{normalLimit} tools used, {remaining} remaining. Start wrapping up.]"
  | .ample, used, normalLimit =>
      let remaining := normalLimit - used
      s!"[System: {used}/{normalLimit} tools used, {remaining} remaining]"

theorem budgetHint_eq_bandMessage (used normalLimit : Int) :
    budgetHint used normalLimit =
      bandMessage (budgetBand used normalLimit) used normalLimit := by
  unfold budgetHint budgetBand
  by_cases h1 : used ≥ normalLimit
  · simp [h1, bandMessage]
  · by_cases h2 : normalLimit - used ≤ 3
    · simp [h1, h2, bandMessage]
    · by_cases h3 : normalLimit - used ≤ 8
      · simp [h1, h2, h3, bandMessage]
      · simp [h1, h2, h3, bandMessage]

/-! ### The round loop (`run_round`) -/

/-- A reconstructed tool call (`id`, `name`, raw `arguments` JSON). -/
structure ToolCallRec where
  id : String
  name : String
  arguments : String

inductive Role where
  | system | user | assistant | tool
deriving DecidableEq

/-- A conversation message, with the fields `run_round` reads and writes:
`reasoning` models `reasoning_content` (present only when truthy),
`toolCalls` the `tool_calls` list (empty when absent), `toolCallId` the
tool message's `tool_call_id`, and `ts` the `_timestamp` stamp. -/
structure Msg where
  role : Role
  content : String
  reasoning : Option String
  toolCalls : List ToolCallRec
  toolCallId : Option String
  ts : Option String

def toolMsg (callId content : String) : Msg :=
  ⟨.tool, content, none, [], some callId, none⟩

def assistantMsg (ts content reasoning : String) (toolCalls : List ToolCallRec) : Msg :=
  ⟨.assistant, content, if reasoning = "" then none else some reasoning,
   toolCalls, none, some ts⟩

/-- What one iteration of the loop gets from the streaming LLM call: a
finished turn (timestamp, content, reasoning, assembled tool calls), or an
exception from `litellm.completion` / the stream consumption. -/
inductive LLMEvent where
  | turn (ts content reasoning : String) (toolCalls : List ToolCallRec)
  | apiError (name msg : String)
  | streamError (name msg : String)

structure RoundResult where
  toolsUsed : Int
  summary : String
  actionLog : String
  error : Option String

/-- `_extract_summary`: time-prefixed reasoning and content of every
assistant message. -/
def extractSummary (messages : List Msg) : String :=
  let parts := messages.foldl (fun acc m =>
    if m.role == Role.assistant then
      let pre := match m.ts with
        | some t => if t = "" then "" else s!"[{t}] "
        | none => ""
      let acc := match m.reasoning with
        | some rc => if rc = "" then acc else acc ++ [pre ++ "[Thinking] " ++ rc]
        | none => acc
      if m.content = "" then acc else acc ++ [pre ++ m.content]
    else acc) []
  let fullText := pyStripStr (joinLines parts)
  if fullText = "" then "(no text output this round)" else fullText

/-- `_extract_action_log`: same, restricted to assistant messages that
triggered tool calls. -/
def extractActionLog (messages : List Msg) : String :=
  let parts := messages.foldl (fun acc m =>
    if m.role == Role.assistant && !m.toolCalls.isEmpty then
      let pre := match m.ts with
        | some t => if t = "" then "" else s!"[{t}] "
        | none => ""
      let acc := match m.reasoning with
        | some rc => if rc = "" then acc else acc ++ [pre ++ "[Thinking] " ++ rc]
        | none => acc
      if m.content = "" then acc else acc ++ [pre ++ m.content]
    else acc) []
  let joined := pyStripStr (joinLines parts)
  if joined = "" then "(no action log this round)" else joined

def mkRoundResult (total : Int) (messages : List Msg) (err : Option String) :
    RoundResult :=
  ⟨total, extractSummary messages, extractActionLog messages, err⟩

/-- `json.loads` with the `_repair_json` fallback, as in the dispatch loop. -/
def parseArgs (raw : String) : Option JVal :=
  match jsonLoads raw with
  | some v => some v
  | none => repairJson raw

/-- The synthetic tool result for arguments that could not be parsed or
repaired. -/
def parseFailResult : String :=
  "(error: failed to parse tool arguments as JSON. Tip: for large files, try writing smaller sections or use shell_execute with 'cat << EOF > file')"

/-- The inline budget-exhausted result built in `run_round` (formatted with
the count before this call is added). -/
def exhaustedInline (total normalLimit : Int) : String :=
  s!"[System: Tool budget exhausted ({total}/{normalLimit}). Please stop calling tools and let the round end.]"

/-- Dispatch of a single tool call, from the `for tc_data in
tool_calls_list` body of `run_round`: parse (with repair), then either the
budget-exhausted result, or execute and prepend the budget hint.  Every
branch counts the call.  `exec` abstracts `ToolExecutor.execute`. -/
def dispatchOne (exec : String → JVal → String) (normalLimit : Int)
    (st : Int × List Msg) (tc : ToolCallRec) : Int × List Msg :=
  match parseArgs tc.arguments with
  | none =>
      let total := st.1 + 1
      let hint := budgetHint total normalLimit
      (total, st.2 ++ [toolMsg tc.id (hint ++ "\n\n" ++ parseFailResult)])
  | some args =>
      if st.1 ≥ normalLimit then
        let result := exhaustedInline st.1 normalLimit
        (st.1 + 1, st.2 ++ [toolMsg tc.id result])
      else
        let result := exec tc.name args
        let total := st.1 + 1
        let hint := budgetHint total normalLimit
        (total, st.2 ++ [toolMsg tc.id (hint ++ "\n\n" ++ result)])

/-- Sequential dispatch of one turn's tool calls. -/
def dispatchCalls (exec : String → JVal → String) (normalLimit : Int)
    (st : Int × List Msg) (calls : List ToolCallRec) : Int × List Msg :=
  calls.foldl (dispatchOne exec normalLimit) st

/-- The `while total_tool_calls < hard_limit` loop of `run_round`, with
`hard_limit = normal_limit + 3`.  `llm` gives the event of each iteration
(the LLM always answers, so it is a total function of the iteration
index); `fuel` bounds the number of iterations the model unfolds and is
irrelevant once the guard fails.  On an LLM or stream error the round
returns early with the error text; a turn without tool calls ends the
round; otherwise the calls are dispatched sequentially and the loop
continues. -/
def runRoundAux (llm : Nat → LLMEvent) (exec : String → JVal → String)
    (normalLimit : Int) : Nat → Nat → Int → List Msg → RoundResult
  | _, 0, total, messages => mkRoundResult total messages none
  | iter, fuel + 1, total, messages =>
      if total < normalLimit + 3 then
        match llm iter with
        | .apiError n m =>
            mkRoundResult total messages (some s!"LLM API error: {n}: {m}")
        | .streamError n m =>
            mkRoundResult total messages (some s!"Stream error: {n}: {m}")
        | .turn ts content reasoning toolCalls =>
            if toolCalls.isEmpty then
              mkRoundResult total
                (messages ++ [assistantMsg ts content reasoning []]) none
            else
              let messages := messages ++ [assistantMsg ts content reasoning toolCalls]
              let st := dispatchCalls exec normalLimit (total, messages) toolCalls
              runRoundAux llm exec normalLimit (iter + 1) fuel st.1 st.2
      else mkRoundResult total messages none
  termination_by structural iter fuel total messages => fuel

/-- `run_round`: start the loop with zero tool calls used. -/
def runRound (llm : Nat → LLMEvent) (exec : String → JVal → String)
    (normalLimit : Int) (messages0 : List Msg) (fuel : Nat) : RoundResult :=
  runRoundAux llm exec normalLimit 0 fuel 0 messages0

/-! ### Claim C4 — budget boundary behaviour -/

/-- C4: (1) the budget hint is exactly the band message of its band;
(2) at `used = normal_limit - 1` the band is warn and at
`used = normal_limit` it is exhausted (for any positive limit);
(3) once `used ≥ normal_limit`, a requested tool call whose arguments
parse receives the budget hint in place of its tool result and still
counts against the budget; (4) the loop exits — consumes no further LLM
turn — once `used ≥ normal_limit + 3`. -/
theorem budget_boundary_behaviour :
    (∀ used normalLimit : Int,
      budgetHint used normalLimit =
        bandMessage (budgetBand used normalLimit) used normalLimit) ∧
    (∀ normalLimit : Int, 1 ≤ normalLimit →
      budgetBand (normalLimit - 1) normalLimit = .warn ∧
      budgetBand normalLimit normalLimit = .exhausted) ∧
    (∀ (exec : String → JVal → String) (normalLimit total : Int)
       (msgs : List Msg) (tc : ToolCallRec) (args : JVal),
      parseArgs tc.arguments = some args →
      total ≥ normalLimit →
      dispatchOne exec normalLimit (total, msgs) tc =
        (total + 1, msgs ++ [toolMsg tc.id (budgetHint total normalLimit)])) ∧
    (∀ (llm : Nat → LLMEvent) (exec : String → JVal → String)
       (normalLimit : Int) (iter fuel : Nat) (total : Int) (msgs : List Msg),
      total ≥ normalLimit + 3 →
      runRoundAux llm exec normalLimit iter fuel total msgs =
        mkRoundResult total msgs none) := by
  refine ⟨budgetHint_eq_bandMessage, ?_, ?_, ?_⟩
  · intro n hn
    constructor
    · unfold budgetBand
      have h1 : ¬(n - 1 ≥ n) := by omega
      have h2 : n - (n - 1) ≤ 3 := by omega
      simp [h1, h2]
    · unfold budgetBand
      simp
  · intro exec n total msgs tc args hparse htot
    unfold dispatchOne
    rw [hparse]
    have hb : budgetHint total n = exhaustedInline total n := by
      unfold budgetHint exhaustedInline
      simp [htot]
    simp [htot, hb]
  · intro llm exec n iter fuel total msgs htot
    cases fuel with
    | zero => rfl
    | succ fuel =>
        unfold runRoundAux
        have : ¬(total < n + 3) := by omega
        simp [this]

/-- C4 witness: the boundary theorem instantiated at `normal_limit = 2`
with a concrete parseable tool call at `used = 2`, and the loop state at
`used = 5 = normal_limit + 3`. -/
theorem budget_boundary_behaviour_witness :
    ((1 : Int) ≤ 2 ∧
      budgetBand 1 2 = .warn ∧ budgetBand 2 2 = .exhausted) ∧
    (parseArgs "\x7b\"command\": \"ls\"\x7d" = some (.obj [("command", JVal.str "ls")]) ∧
      (2 : Int) ≥ 2 ∧
      dispatchOne (fun _ _ => "ok") 2 (2, []) ⟨"call_1", "shell_execute", "\x7b\"command\": \"ls\"\x7d"⟩ =
        (3, [toolMsg "call_1" (budgetHint 2 2)])) ∧
    ((5 : Int) ≥ 2 + 3 ∧
      runRoundAux (fun _ => .turn "12:00:00" "" "" []) (fun _ _ => "ok") 2 0 7 5 [] =
        mkRoundResult 5 [] none) := by
  have h := budget_boundary_behaviour
  refine ⟨⟨by decide, (h.2.1 2 (by decide)).1, (h.2.1 2 (by decide)).2⟩, ⟨rfl, by decide, ?_⟩, ⟨by decide, ?_⟩⟩
  · have := h.2.2.1 (fun _ _ => "ok") 2 2 []
      ⟨"call_1", "shell_execute", "\x7b\"command\": \"ls\"\x7d"⟩
      (.obj [("command", JVal.str "ls")]) rfl (by decide)
    simpa using this
  · exact h.2.2.2 (fun _ => .turn "12:00:00" "" "" []) (fun _ _ => "ok") 2 0 7 5 [] (by decide)

/-! ## The stealth layer (`activator/stealth.py`)

`os.path.realpath(os.path.abspath(...))` is filesystem-dependent
(symlinks), so it is passed as an explicit `resolve` oracle; `none` models
the `ValueError` / `OSError` the source catches (fail-safe to cloaked). -/

/-- `os.path.join` for POSIX paths, as used on (absolute dir, name). -/
def osJoin (a b : String) : String :=
  if strStartsWith b "/" then b
  else if a = "" || strEndsWith a "/" then a ++ b
  else a ++ "/" ++ b

/-- `is_cloaked_path`: the resolved path equals the resolved project root
or lies strictly inside it; any resolution failure cloaks (fail-safe). -/
def isCloakedPath (resolve : String → Option String)
    (path projectDir : String) : Bool :=
  match resolve path, resolve projectDir with
  | some rp, some rf => rp == rf || strStartsWith rp (rf ++ "/")
  | _, _ => true

/-- `_line_exposes_cloaked`: candidates are the stripped line and the last
whitespace token; names starting with a slash are skipped (handled by the
keyword filter); each remaining candidate is joined to each command path
and tested with `is_cloaked_path`. -/
def lineExposes (resolve : String → Option String) (line : String)
    (dirPaths : List String) (projectDir : String) : Bool :=
  let cands :=
    (let st := pyStripStr line; if st = "" then [] else [st]) ++
    (match (pySplitWs line).getLast? with | some t => [t] | none => [])
  cands.any (fun name =>
    if name = "" || strStartsWith name "/" then false
    else dirPaths.any (fun d => isCloakedPath resolve (osJoin d name) projectDir))

/-- `filter_cloaked_output`: drop every line that exposes a cloaked path;
unchanged when the output, the command paths, or the project dir is
empty. -/
def filterCloakedOutput (resolve : String → Option String) (output : String)
    (commandPaths : List String) (projectDir : String) : String :=
  if output = "" || commandPaths.isEmpty || projectDir = "" then output
  else joinLines ((splitLines output).filter
    (fun l => !lineExposes resolve l commandPaths projectDir))

/-- Case-insensitive literal substring test, modelling
`re.compile(re.escape(kw), re.IGNORECASE).search(line)`. -/
def containsCI (line kw : String) : Bool :=
  ((strToLower line).toList).tails.any
    (fun suf => (strToLower kw).toList.isPrefixOf suf)

/-- `filter_output`: drop lines containing any stealth keyword
(case-insensitive). -/
def filterOutputKeywords (output : String) (keywords : List String) : String :=
  if keywords.isEmpty || output = "" then output
  else joinLines ((splitLines output).filter
    (fun l => !keywords.any (fun kw => containsCI l kw)))

/-- Python `str.rstrip(chars)` for a character set. -/
def pyRstripSet (s : String) (set : List Char) : String :=
  String.mk ((s.toList.reverse.dropWhile (fun c => set.contains c)).reverse)

/-- `extract_command_paths` applied to the token list produced by
`shlex.split` (or the whitespace-split fallback); the tokenisation itself
is passed in, the per-token filtering is modelled: keep tokens starting
with a slash, stripped of trailing shell operators. -/
def extractCommandPaths (tokens : List String) : List String :=
  tokens.filterMap (fun t =>
    if strStartsWith t "/" then
      let clean := pyRstripSet t [';', ',', Char.ofNat 124, '&']
      if clean = "" then none else some clean
    else none)

/-- `CLOAKED_READ_RESPONSE` with the path substituted. -/
def cloakedReadResponse (path : String) : String :=
  s!"(error: file not found: {path})"

/-- The `str()` of a `PermissionError` for a denied open at `p`. -/
def permissionDeniedMsg (p : String) : String :=
  "[Errno 13] Permission denied: '" ++ p ++ "'"

/-- `CLOAKED_WRITE_RESPONSE` with the path substituted. -/
def cloakedWriteResponse (path : String) : String :=
  s!"(error: PermissionError: {permissionDeniedMsg path})"

/-- `CLOAKED_SHELL_RESPONSE` with the path substituted. -/
def cloakedShellResponse (path : String) : String :=
  s!"{path}: No such file or directory"

/-! ## File tools (`_read_file`, `_write_file` in `activator/tools.py`) -/

/-- Outcome of `open(path).read()`, as an oracle. -/
inductive ReadOutcome where
  | ok (content : String)
  | notFound
  | isDir
  | exc (name msg : String)

/-- Outcome of `makedirs` + `open` + `write`, as an oracle. -/
inductive WriteOutcome where
  | ok
  | exc (name msg : String)

/-- `_read_file`: cloaked paths get the canned missing-file response;
otherwise read, with the empty-file message and the truncation marker;
errors become strings. -/
def readFileT (resolve : String → Option String)
    (fsRead : String → ReadOutcome) (path projectDir : String)
    (maxOutput : Nat) : String :=
  if isCloakedPath resolve path projectDir then cloakedReadResponse path
  else
    match fsRead path with
    | .ok content =>
        if content = "" then "(file is empty)"
        else if content.length > maxOutput then
          strTake content maxOutput ++ s!"\n... (truncated, total {content.length} chars)"
        else content
    | .notFound => s!"(error: file not found: {path})"
    | .isDir => s!"(error: '{path}' is a directory, not a file)"
    | .exc n m => s!"(error: {n}: {m})"

/-- `_write_file` for string content: cloaked paths get the canned
permission-denied response; otherwise write and report the byte count;
errors become strings. -/
def writeFileT (resolve : String → Option String)
    (fsWrite : String → WriteOutcome) (path content : String)
    (append : Bool) (projectDir : String) : String :=
  if isCloakedPath resolve path projectDir then cloakedWriteResponse path
  else
    match fsWrite path with
    | .ok =>
        let action := if append then "appended" else "wrote"
        s!"OK: {action} {content.length} chars to {path}"
    | .exc n m => s!"(error: {n}: {m})"

/-! ### Line-splitting lemmas -/

theorem splitNL_cons (c : Char) (cs : List Char) :
    splitNL (c :: cs) =
      if c = '\n' then [] :: splitNL cs
      else
        match splitNL cs with
        | [] => [[c]]
        | g :: gs => (c :: g) :: gs := rfl

theorem splitNL_ne_nil (cs : List Char) : splitNL cs ≠ [] := by
  induction cs with
  | nil => simp [splitNL]
  | cons c rest ih =>
      rw [splitNL_cons]
      by_cases hc : c = '\n'
      · simp [hc]
      · simp only [hc, if_false]
        cases hr : splitNL rest <;> simp

theorem not_nl_of_mem_splitNL (cs : List Char) (g : List Char)
    (h : g ∈ splitNL cs) : '\n' ∉ g := by
  induction cs generalizing g with
  | nil =>
      simp [splitNL] at h
      simp [h]
  | cons c rest ih =>
      rw [splitNL_cons] at h
      by_cases hc : c = '\n'
      · simp only [hc, if_true] at h
        rcases List.mem_cons.mp h with rfl | h
        · simp
        · exact ih g h
      · simp only [hc, if_false] at h
        cases hr : splitNL rest with
        | nil => exact absurd hr (splitNL_ne_nil rest)
        | cons g0 gs =>
            rw [hr] at h
            rcases List.mem_cons.mp h with rfl | h
            · intro hmem
              rcases List.mem_cons.mp hmem with h1 | h1
              · exact hc h1.symm
              · exact ih g0 (by rw [hr]; exact List.mem_cons_self g0 gs) h1
            · exact ih g (by rw [hr]; exact List.mem_cons_of_mem g0 h)

theorem splitNL_no_nl (g : List Char) (h : '\n' ∉ g) : splitNL g = [g] := by
  induction g with
  | nil => rfl
  | cons c rest ih =>
      have hc : ¬(c = '\n') := fun hcc => h (by simp [hcc])
      have hrest : '\n' ∉ rest := fun hm => h (List.mem_cons_of_mem c hm)
      rw [splitNL_cons, ih hrest]
      simp [hc]

theorem splitNL_append_nl (g rest : List Char) (h : '\n' ∉ g) :
    splitNL (g ++ '\n' :: rest) = g :: splitNL rest := by
  induction g with
  | nil => simp [splitNL_cons]
  | cons c g ih =>
      have hc : ¬(c = '\n') := fun hcc => h (by simp [hcc])
      have hg : '\n' ∉ g := fun hm => h (List.mem_cons_of_mem c hm)
      rw [List.cons_append, splitNL_cons, ih hg]
      simp [hc]

theorem splitNL_joinNL (groups : List (List Char))
    (h : ∀ g ∈ groups, '\n' ∉ g) (hne : groups ≠ []) :
    splitNL (joinNL groups) = groups := by
  induction groups with
  | nil => exact absurd rfl hne
  | cons g gs ih =>
      cases gs with
      | nil =>
          simp only [joinNL]
          exact splitNL_no_nl g (h g (List.mem_cons_self g []))
      | cons g2 gs2 =>
          have hg : '\n' ∉ g := h g (List.mem_cons_self g _)
          have hrest : ∀ x ∈ g2 :: gs2, '\n' ∉ x :=
            fun x hx => h x (List.mem_cons_of_mem g hx)
          show splitNL (g ++ '\n' :: joinNL (g2 :: gs2)) = _
          rw [splitNL_append_nl g _ hg, ih hrest (by simp)]

theorem string_mk_toList (s : String) : String.mk s.toList = s := rfl

theorem no_nl_mem_splitLines (s : String) :
    ∀ l ∈ splitLines s, '\n' ∉ l.toList := by
  intro l hl
  unfold splitLines at hl
  by_cases hs : s = ""
  · simp [hs] at hl
  · simp only [hs, if_false] at hl
    rcases List.mem_map.mp hl with ⟨g, hg, rfl⟩
    have hg' : g ∈ splitNL s.toList := by
      by_cases hlast : (splitNL s.toList).getLast? = some ([] : List Char)
      · simp only [hlast, if_pos rfl] at hg
        exact List.dropLast_subset _ hg
      · simp only [hlast, if_neg hlast] at hg
        exact hg
    have := not_nl_of_mem_splitNL s.toList g hg'
    simpa using this

theorem mem_splitLines_joinLines (ls : List String)
    (h : ∀ l ∈ ls, '\n' ∉ l.toList) :
    ∀ x ∈ splitLines (joinLines ls), x ∈ ls := by
  intro x hx
  cases hls : ls with
  | nil =>
      subst hls
      simp [joinLines, joinNL, splitLines] at hx
  | cons l0 ls0 =>
      subst hls
      unfold splitLines at hx
      by_cases hempty : joinLines (l0 :: ls0) = ""
      · rw [hempty] at hx
        simp at hx
      · simp only [hempty, if_false] at hx
        have hgroups : ∀ g ∈ (l0 :: ls0).map String.toList, '\n' ∉ g := by
          intro g hg
          rcases List.mem_map.mp hg with ⟨l, hl, rfl⟩
          exact h l hl
        have hsplit : splitNL (joinLines (l0 :: ls0)).toList
            = (l0 :: ls0).map String.toList := by
          show splitNL (String.mk (joinNL ((l0 :: ls0).map String.toList))).toList = _
          have : (String.mk (joinNL ((l0 :: ls0).map String.toList))).toList
              = joinNL ((l0 :: ls0).map String.toList) := rfl
          rw [this]
          exact splitNL_joinNL _ hgroups (by simp)
        rw [hsplit] at hx
        rcases List.mem_map.mp
          (by
            by_cases hlast : ((l0 :: ls0).map String.toList).getLast? = some ([] : List Char)
            · simp only [hlast, if_pos rfl] at hx
              exact List.mem_map.mpr
                (match List.mem_map.mp (hx : x ∈ _) with
                 | ⟨g, hg, he⟩ => ⟨g, List.dropLast_subset _ hg, he⟩)
            · simp only [hlast, if_neg hlast] at hx
              exact hx) with ⟨g, hg, rfl⟩
        rcases List.mem_map.mp hg with ⟨l, hl, rfl⟩
        have : String.mk l.toList = l := string_mk_toList l
        rw [this]
        exact hl

/-! ### Claim C5 — cloaked file access is byte-identical to real OS errors -/

/-- C5: for every path whose resolution lands inside the project root
(`resolve1` / `proj1` is the cloaked world), `_read_file` returns a string
byte-identical to what the very same function returns for a genuinely
missing file at that path in a world where the path is not cloaked, and
`_write_file` returns a string byte-identical to what it returns for a
genuine OS permission-denied error at that path (whose `str()` is the
standard `[Errno 13]` message). -/
theorem cloaked_file_tools_indistinguishable :
    ∀ (resolve1 resolve2 : String → Option String)
      (fsRead1 fsRead2 : String → ReadOutcome)
      (fsWrite1 fsWrite2 : String → WriteOutcome)
      (p proj1 proj2 content : String) (append : Bool) (maxOutput : Nat)
      (rp rf : String),
      resolve1 p = some rp →
      resolve1 proj1 = some rf →
      (rp = rf ∨ strStartsWith rp (rf ++ "/") = true) →
      isCloakedPath resolve2 p proj2 = false →
      fsRead2 p = .notFound →
      fsWrite2 p = .exc "PermissionError" (permissionDeniedMsg p) →
      readFileT resolve1 fsRead1 p proj1 maxOutput =
        readFileT resolve2 fsRead2 p proj2 maxOutput ∧
      writeFileT resolve1 fsWrite1 p content append proj1 =
        writeFileT resolve2 fsWrite2 p content append proj2 := by
  intro resolve1 resolve2 fsRead1 fsRead2 fsWrite1 fsWrite2
    p proj1 proj2 content append maxOutput rp rf
    hres hproj hin hcl2 hread2 hwrite2
  have hcl : isCloakedPath resolve1 p proj1 = true := by
    unfold isCloakedPath
    rw [hres, hproj]
    rcases hin with rfl | hsw
    · simp
    · simp [hsw]
  constructor
  · unfold readFileT
    simp only [hcl, if_true, hcl2, Bool.false_eq_true, if_false, hread2]
    rfl
  · unfold writeFileT
    simp only [hcl, if_true, hcl2, Bool.false_eq_true, if_false, hwrite2]
    rfl

/-- C5 witness: the theorem applied to the cloaked world with identity
resolution and project root `/opt/app` (the spec's cloaked-read scenario),
against a world where the same path is outside the root, missing on read
and permission-denied on write. -/
theorem cloaked_file_tools_indistinguishable_witness :
    ((fun (q : String) => some q) "/opt/app/data/snapshot.yaml"
        = some "/opt/app/data/snapshot.yaml" ∧
     (fun (q : String) => some q) "/opt/app" = some "/opt/app" ∧
     ("/opt/app/data/snapshot.yaml" = "/opt/app" ∨
       strStartsWith "/opt/app/data/snapshot.yaml" ("/opt/app" ++ "/") = true) ∧
     isCloakedPath (fun q => some q) "/opt/app/data/snapshot.yaml" "/other" = false) ∧
    (readFileT (fun q => some q) (fun _ => .ok "SECRET")
        "/opt/app/data/snapshot.yaml" "/opt/app" 4000 =
      readFileT (fun q => some q) (fun _ => .notFound)
        "/opt/app/data/snapshot.yaml" "/other" 4000 ∧
     writeFileT (fun q => some q) (fun _ => .ok)
        "/opt/app/data/snapshot.yaml" "hi" false "/opt/app" =
      writeFileT (fun q => some q)
        (fun q => .exc "PermissionError" (permissionDeniedMsg q))
        "/opt/app/data/snapshot.yaml" "hi" false "/other") :=
  ⟨⟨rfl, rfl, Or.inr (by decide), by decide⟩,
    cloaked_file_tools_indistinguishable
      (fun q => some q) (fun q => some q)
      (fun _ => .ok "SECRET") (fun _ => .notFound)
      (fun _ => .ok) (fun q => .exc "PermissionError" (permissionDeniedMsg q))
      "/opt/app/data/snapshot.yaml" "/opt/app" "/other" "hi" false 4000
      "/opt/app/data/snapshot.yaml" "/opt/app"
      rfl rfl (Or.inr (by decide)) (by decide) rfl rfl⟩

/-! ### Claim C6 — the contextual output filter -/

/-- The post-execution filtering of `_shell_execute` (Layer 2 then
Layer 3): the contextual filter when command paths were extracted, then
the keyword filter when stealth keywords exist. -/
def postExecFilter (resolve : String → Option String) (output : String)
    (cmdPaths : List String) (projectDir : String)
    (keywords : List String) : String :=
  let o1 := if !cmdPaths.isEmpty
            then filterCloakedOutput resolve output cmdPaths projectDir
            else output
  if !keywords.isEmpty then filterOutputKeywords o1 keywords else o1

/-- A resolver world where `/tmp/link` is a symlink into the project root
and every other path is canonical. -/
def c6resolve : String → Option String :=
  fun q => if q = "/tmp/link" then some "/opt/app/secret" else some q

/-- C6 counterexample: the claim quantifies over EVERY output line whose
join with a command path resolves inside the project root.  A line that
is itself an absolute path (here the symlink `/tmp/link`, printed by a
command over `/tmp/`) joins to itself, resolves inside `/opt/app`, yet
survives both the contextual filter (candidates starting with a slash are
skipped) and the keyword filter (the line does not contain the project
root text), so the agent sees it. -/
theorem contextual_filter_misses_absolute_line :
    isCloakedPath c6resolve (osJoin "/tmp/" "/tmp/link") "/opt/app" = true ∧
    "/tmp/link" ∈ splitLines
      (postExecFilter c6resolve "link.txt\n/tmp/link\n" ["/tmp/"] "/opt/app"
        ["/opt/app"]) := by
  exact ⟨rfl, by decide⟩

/-- C6 (amended): for every output line that is not itself absolute —
whose stripped text or last whitespace token does not begin with a slash
— and that, path-joined with some absolute path extracted from the
command, resolves inside the project root, the line is absent from the
contextual filter's output; and on the spec's concrete example (`ls /opt/`
printing `app`, `shared`, `logs` with project root `/opt/app`) the
agent-visible output is exactly `shared` and `logs`. -/
theorem filterCloakedOutput_drops_exposing_lines :
    (∀ (resolve : String → Option String) (output projectDir line : String)
       (cmdPaths : List String),
      output ≠ "" → cmdPaths ≠ [] → projectDir ≠ "" →
      line ∈ splitLines output →
      lineExposes resolve line cmdPaths projectDir = true →
      line ∉ splitLines (filterCloakedOutput resolve output cmdPaths projectDir)) ∧
    filterCloakedOutput (fun q => some q) "app\nshared\nlogs\n" ["/opt/"] "/opt/app"
      = "shared\nlogs" := by
  constructor
  · intro resolve output projectDir line cmdPaths ho hc hp hmem hexp hcontra
    unfold filterCloakedOutput at hcontra
    split at hcontra
    · next hcond =>
        simp [ho, hp, List.isEmpty_iff, hc] at hcond
    · next hcond =>
        have hnl : ∀ l ∈ (splitLines output).filter
            (fun l => !lineExposes resolve l cmdPaths projectDir),
            '\n' ∉ l.toList := by
          intro l hl
          exact no_nl_mem_splitLines output l (List.mem_filter.mp hl).1
        have hkept := mem_splitLines_joinLines _ hnl line hcontra
        have hkeep := (List.mem_filter.mp hkept).2
        rw [hexp] at hkeep
        simp at hkeep
  · decide

/-- C6 witness: the universal part of the amended theorem applied to the
spec's `ls /opt/` example — the exposing line `app` is absent from the
filtered output. -/
theorem filterCloakedOutput_drops_exposing_lines_witness :
    ("app\nshared\nlogs\n" ≠ "" ∧ (["/opt/"] : List String) ≠ [] ∧
     "/opt/app" ≠ "" ∧
     "app" ∈ splitLines "app\nshared\nlogs\n" ∧
     lineExposes (fun q => some q) "app" ["/opt/"] "/opt/app" = true) ∧
    "app" ∉ splitLines
      (filterCloakedOutput (fun q => some q) "app\nshared\nlogs\n"
        ["/opt/"] "/opt/app") :=
  ⟨⟨by decide, by decide, by decide, by decide, by decide⟩,
    filterCloakedOutput_drops_exposing_lines.1 (fun q => some q)
      "app\nshared\nlogs\n" "/opt/app" "app" ["/opt/"]
      (by decide) (by decide) (by decide) (by decide) (by decide)⟩

/-! ## The tool dispatcher (`ToolExecutor.execute` in `activator/tools.py`)

The dispatcher receives a tool name and the parsed JSON argument
dictionary (a `List (String × JVal)`), reads each argument with
`args.get(key, default)` and calls the tool implementation.  A Python
exception that escapes `execute` is modelled as `Except.error` carrying
the exception class; exceptions caught by a tool body's own `except`
clauses stay in-band as returned strings.  Filesystem, subprocess and
HTTP effects are oracles bundled in a `World`. -/

/-- The Python exception classes that can escape `execute`:
`TypeError` (from `os.path` / `re` / string concatenation on a
non-string argument), `AttributeError` (from `shlex.split` reading a
non-string stream, Python ≥ 3.12 also for `None` via the `str.split`
fallback), and `ValueError` (from `os.path.realpath` on a path with an
embedded null byte, Python ≥ 3.8 — the skill tools call it outside any
`try`). -/
inductive PyExc where
  | typeError
  | attributeError
  | valueError
deriving DecidableEq

/-- Python truthiness of a parsed JSON argument value. -/
def jtruthy : JVal → Bool
  | .str s => !s.isEmpty
  | .num n => n != 0
  | .bool b => b
  | .null => false
  | .arr xs => !xs.isEmpty
  | .obj fs => !fs.isEmpty

/-- Whether an argument value is a Python `str`. -/
def JVal.isStr : JVal → Bool
  | .str _ => true
  | _ => false

/-- `type(v).__name__` for a parsed JSON argument value. -/
def pyTypeName : JVal → String
  | .str _ => "str"
  | .num _ => "int"
  | .bool _ => "bool"
  | .null => "NoneType"
  | .arr _ => "list"
  | .obj _ => "dict"

/-- The apostrophe character, kept out of string literals. -/
def chApos : Char := Char.ofNat 39

/-- Quote-and-backslash escaping used inside container `repr`s (a
simplification of CPython's quote-choice rule: strings are always rendered
in single quotes; control characters are left as-is). -/
def escapeQ (s : String) : String :=
  String.mk ((s.toList.map (fun c =>
    if c = chBackslash then [chBackslash, chBackslash]
    else if c = chApos then [chBackslash, chApos]
    else [c])).flatten)

/-! Python `repr` for JSON argument values (mutual over the nested
lists/objects), used by `str()` on non-string values in f-strings. -/

mutual

def pyRepr : JVal → String
  | .str s => String.mk (chApos :: (escapeQ s).toList) ++ String.mk [chApos]
  | .num n => toString n
  | .bool b => if b then "True" else "False"
  | .null => "None"
  | .arr xs => "[" ++ pyReprList xs ++ "]"
  | .obj fs => "\x7b" ++ pyReprFields fs ++ "\x7d"

def pyReprList : List JVal → String
  | [] => ""
  | [x] => pyRepr x
  | x :: y :: rest => pyRepr x ++ ", " ++ pyReprList (y :: rest)

def pyReprFields : List (String × JVal) → String
  | [] => ""
  | [(k, v)] => pyRepr (.str k) ++ ": " ++ pyRepr v
  | (k, v) :: f :: rest => pyRepr (.str k) ++ ": " ++ pyRepr v ++ ", " ++ pyReprFields (f :: rest)

end

/-- Python `str(v)` for a parsed JSON argument value, as rendered by an
f-string: strings verbatim, containers via `repr` of their elements. -/
def pyStr : JVal → String
  | .str s => s
  | v => pyRepr v

/-- `args.get(k, dflt)` on the parsed argument dictionary. -/
def aget (args : List (String × JVal)) (k : String) (dflt : JVal) : JVal :=
  match args.find? (fun kv => kv.fst == k) with
  | some kv => kv.snd
  | none => dflt

/-- Outcome of `subprocess.run(command, shell=True, ...)`: a completed
process with captured stdout/stderr and return code, a
`subprocess.TimeoutExpired`, a `FileNotFoundError` for a missing working
directory, or another raised exception (class name and `str()`). -/
inductive RunOutcome where
  | completed (stdout stderr : String) (rc : Int)
  | timedOut
  | cwdMissing
  | exc (name msg : String)

/-- Outcome of `requests.post` in `_community`: a response (status code,
body text, and the result of `resp.json().get("text", ...)` — `.error`
for a raised `JSONDecodeError`/`AttributeError`, `.ok none` for a missing
`text` field), or a raised connection error / timeout / other
exception. -/
inductive HttpOutcome where
  | success (status : Int) (bodyText : String) (parsed : Except (String × String) (Option String))
  | connectionError
  | timedOut
  | exc (name msg : String)

/-- The effect oracles for one `execute` invocation: `resolve` is
`os.path.realpath(os.path.abspath(·))` with `none` for a raised
`ValueError`/`OSError` (as in the stealth layer); `realp` is the plain
`os.path.realpath` used by the skill tools, with `none` for the
`ValueError: embedded null byte` it raises (with `strict=False` it
suppresses `OSError`, so the null-byte `ValueError` is its only raise);
`tokenize` is `shlex.split` with its `str.split` fallback; `run` is
`subprocess.run`; `fsRead` is `open(·).read()`; `fsWrite` is the
`makedirs`+`open`+`write` of `_write_file`; `editWrite` is the rewrite
in `_edit_file`; `isFile` and `isDir` are
`os.path.isfile`/`os.path.isdir` (which catch `ValueError`/`OSError`
from `os.stat` and return `False`); `http` is the one `requests.post`
of `_community`. -/
structure World where
  resolve : String → Option String
  realp : String → Option String
  tokenize : String → List String
  run : String → RunOutcome
  fsRead : String → ReadOutcome
  fsWrite : String → WriteOutcome
  editWrite : String → WriteOutcome
  isFile : String → Bool
  isDir : String → Bool
  http : HttpOutcome

/-- The NUL character. -/
def chNull : Char := Char.ofNat 0

/-- Whether a path string is free of embedded null bytes: the `os.path`
predicates swallow the `ValueError` that `os.stat` raises on NUL, but
`os.path.realpath` re-raises it. -/
def strNoNull (s : String) : Bool :=
  s.toList.all (fun c => c != chNull)

/-- The `ToolExecutor` attributes read by `execute`. -/
structure ExecCfg where
  agentHome : String
  projectDir : String
  timeout : Int
  maxOutput : Nat
  skillsDir : String
  communityUrl : String
  communityKey : String
  stealthKeywords : List String

/-- `ToolExecutor._resolve_path` on a string: falsy unchanged, absolute
(`os.path.isabs`) unchanged, otherwise joined to `agent_home`. -/
def resolvePathS (agentHome p : String) : String :=
  if p = "" then p
  else if strStartsWith p "/" then p
  else osJoin agentHome p

/-- `_resolve_path` on the raw argument value: a truthy non-string reaches
`os.path.isabs`, whose `os.fspath` raises `TypeError`; a falsy non-string
is returned unchanged by the `if not path: return path` guard. -/
def resolvePathJ (agentHome : String) : JVal → Except PyExc JVal
  | .str s => .ok (.str (resolvePathS agentHome s))
  | v => if jtruthy v then .error .typeError else .ok v

/-! ### `_shell_execute` -/

/-- Regex `\w` (ASCII approximation, as the keywords are ASCII). -/
def isWordChar (c : Char) : Bool := c.isAlphanum || c = '_'

/-- One match attempt of `(localhost|127\.0\.0\.1|0\.0\.0\.0):{port}\b`
at the head of `cs`. -/
def portRefAt (port : String) (cs : List Char) : Bool :=
  ["localhost", "127.0.0.1", "0.0.0.0"].any (fun h =>
    let pre := (h ++ ":" ++ port).toList
    pre.isPrefixOf cs &&
      (match cs.drop pre.length with
       | [] => true
       | c :: _ => !isWordChar c))

/-- `re.search` of the port pattern over the command text. -/
def searchPortRef (port : String) (cs : List Char) : Bool :=
  cs.tails.any (fun suf => portRefAt port suf)

/-- The server ports among the stealth keywords: keywords of the form
`":{digits}"` (`kw.startswith(":") and kw[1:].isdigit()`), in order. -/
def portKeywords (kws : List String) : List String :=
  kws.filterMap (fun kw =>
    match kw.toList with
    | c :: rest =>
        if c = ':' && !rest.isEmpty && rest.all (fun d => d.isDigit)
        then some (String.mk rest) else none
    | [] => none)

/-- `_shell_execute` on a string command: Layer 1 path interception,
Layer 1b management-port interception, then the subprocess with output
assembly, truncation, and the Layer 2 / Layer 3 output filters. -/
def shellExecuteS (w : World) (cfg : ExecCfg) (command : String) : String :=
  let cmdPaths :=
    if cfg.projectDir != "" then extractCommandPaths (w.tokenize command) else []
  match cmdPaths.find? (fun p => isCloakedPath w.resolve p cfg.projectDir) with
  | some p => cloakedShellResponse p
  | none =>
  match (portKeywords cfg.stealthKeywords).find?
      (fun port => searchPortRef port command.toList) with
  | some port =>
      s!"curl: (7) Failed to connect to localhost port {port} after 0 ms: Connection refused"
  | none =>
  match w.run command with
  | .timedOut => s!"(error: command timed out after {cfg.timeout}s)"
  | .cwdMissing => s!"(error: working directory '{cfg.agentHome}' does not exist)"
  | .exc n m => s!"(error: {n}: {m})"
  | .completed out err rc =>
      let output := out ++ err
      let output1 := if pyStripStr output = "" then s!"(no output, exit code: {rc})" else output
      let output2 :=
        if output1.length > cfg.maxOutput then
          strTake output1 cfg.maxOutput ++ s!"\n... (truncated, total {output1.length} chars)"
        else output1
      let output3 :=
        if !cmdPaths.isEmpty then
          filterCloakedOutput w.resolve output2 cmdPaths cfg.projectDir
        else output2
      filterOutputKeywords output3 cfg.stealthKeywords

/-- `_shell_execute` on the raw command value.  A non-string command with
a truthy `project_dir` dies in `shlex.split` (`instream.read` on a
non-string → `AttributeError`; on Python ≥ 3.12 `None` raises
`ValueError`, whose `str.split` fallback then raises `AttributeError`
too), outside any `try`.  With a falsy `project_dir`, a port keyword
makes `re.search` raise `TypeError`; otherwise `subprocess.run` raises
`TypeError` (`list(command)` on a non-iterable) inside the `try`, which
comes back in-band — the scalar message is used (a non-string iterable
command in this no-stealth corner, which never occurs in this program,
is approximated by the same message). -/
def shellExecuteX (w : World) (cfg : ExecCfg) : JVal → Except PyExc String
  | .str command => .ok (shellExecuteS w cfg command)
  | v =>
      if cfg.projectDir != "" then .error .attributeError
      else if !(portKeywords cfg.stealthKeywords).isEmpty then .error .typeError
      else .ok (s!"(error: TypeError: " ++ String.mk [chApos] ++ pyTypeName v ++
        String.mk [chApos] ++ " object is not iterable)")

/-! ### `_read_file`, `_write_file`, `_edit_file` on raw arguments -/

/-- `_read_file` on the raw (already `_resolve_path`-ed) path value: a
non-string path (necessarily falsy here) reaches `is_cloaked_path`, whose
`os.path.abspath` raises a `TypeError` that its
`except (ValueError, OSError)` does not catch — outside `_read_file`'s
`try`. -/
def readFileX (w : World) (cfg : ExecCfg) : JVal → Except PyExc String
  | .str p => .ok (readFileT w.resolve w.fsRead p cfg.projectDir cfg.maxOutput)
  | _ => .error .typeError

/-- `_write_file` body on a string path: string content follows
`writeFileT`; non-string content passes the cloak check and
`makedirs`+`open`, and only then `f.write` raises a `TypeError` that the
`except Exception` turns into an in-band string. -/
def writeFileS (w : World) (cfg : ExecCfg) (p : String) (content : JVal)
    (append : Bool) : String :=
  match content with
  | .str c => writeFileT w.resolve w.fsWrite p c append cfg.projectDir
  | v =>
      if isCloakedPath w.resolve p cfg.projectDir then cloakedWriteResponse p
      else
        match w.fsWrite p with
        | .ok => s!"(error: TypeError: write() argument must be str, not {pyTypeName v})"
        | .exc n m => s!"(error: {n}: {m})"

/-- `_write_file` on raw values: a non-string path raises in
`is_cloaked_path` (outside the `try`); the `append` flag is only ever
used for its truthiness. -/
def writeFileX (w : World) (cfg : ExecCfg) : JVal → JVal → Bool → Except PyExc String
  | .str p, content, append => .ok (writeFileS w cfg p content append)
  | _, _, _ => .error .typeError

/-- Python `'\n'` count in a string. -/
def countNL (s : String) : Nat :=
  (s.toList.filter (fun c => c = '\n')).length

/-- Python `content.count(old)` for a nonempty `old`: non-overlapping
occurrences, scanning left to right (fuel = text length). -/
def countSubAux : Nat → List Char → List Char → Nat
  | 0, _, _ => 0
  | _ + 1, [], _ => 0
  | fuel + 1, c :: rest, sub =>
      if sub.isPrefixOf (c :: rest) then
        1 + countSubAux fuel (List.drop sub.length (c :: rest)) sub
      else countSubAux fuel rest sub
  termination_by structural fuel cs sub => fuel

/-- `str.count` entry point. -/
def countSub (s sub : String) : Nat :=
  countSubAux s.toList.length s.toList sub.toList

/-- `_edit_file` body on a string path, following the source order:
cloak check, empty-`old_str` guard (truthiness), `os.path.isfile`, read,
`content.count(old_str)` (raising in-band for a non-string `old_str`),
the zero/multiple-match messages, `content.replace` (raising in-band for
a non-string `new_str`), the rewrite, and the line-count action
message. -/
def editFileS (w : World) (cfg : ExecCfg) (p : String) (oldV newV : JVal) : String :=
  if isCloakedPath w.resolve p cfg.projectDir then cloakedWriteResponse p
  else if !jtruthy oldV then
    "(error: old_str must not be empty — use write_file to create new files)"
  else if !w.isFile p then s!"(error: file not found: {p})"
  else
    match w.fsRead p with
    | .notFound => "(error: FileNotFoundError: [Errno 2] No such file or directory: " ++
        String.mk (chApos :: p.toList) ++ String.mk [chApos] ++ ")"
    | .isDir => "(error: IsADirectoryError: [Errno 21] Is a directory: " ++
        String.mk (chApos :: p.toList) ++ String.mk [chApos] ++ ")"
    | .exc n m => s!"(error: {n}: {m})"
    | .ok content =>
        match oldV with
        | .str oldStr =>
            let count := countSub content oldStr
            if count == 0 then
              "(error: old_str not found in file. Make sure it matches the file content exactly, including whitespace and indentation.)"
            else if count > 1 then
              s!"(error: old_str matches {count} locations. Include more surrounding context to make it unique.)"
            else
              match newV with
              | .str newStr =>
                  (match w.editWrite p with
                   | .exc n m => s!"(error: {n}: {m})"
                   | .ok =>
                      let oldLines := countNL oldStr + 1
                      let newLines := if newStr != "" then countNL newStr + 1 else 0
                      let action :=
                        if newStr == "" then s!"deleted {oldLines} line(s)"
                        else if oldLines == newLines then s!"replaced {oldLines} line(s)"
                        else s!"replaced {oldLines} line(s) with {newLines} line(s)"
                      s!"OK: {action} in {p}")
              | v => s!"(error: TypeError: replace() argument 2 must be str, not {pyTypeName v})"
        | v => s!"(error: TypeError: must be str, not {pyTypeName v})"

/-- `_edit_file` on raw values: a non-string path raises in
`is_cloaked_path` (outside the `try`). -/
def editFileX (w : World) (cfg : ExecCfg) : JVal → JVal → JVal → Except PyExc String
  | .str p, oldV, newV => .ok (editFileS w cfg p oldV newV)
  | _, _, _ => .error .typeError

/-! ### `_skill_read`, `_skill_exec` -/

/-- Plain (case-sensitive) substring test, Python `sub in s`. -/
def containsSub (s sub : String) : Bool :=
  s.toList.tails.any (fun suf => sub.toList.isPrefixOf suf)

/-- Python `s.replace(pat, rep)` (all non-overlapping occurrences, left
to right; fuel = text length, `pat` nonempty at every call site). -/
def replaceAllAux : Nat → List Char → List Char → List Char → List Char
  | 0, s, _, _ => s
  | _ + 1, [], _, _ => []
  | fuel + 1, c :: rest, pat, rep =>
      if !pat.isEmpty && pat.isPrefixOf (c :: rest) then
        rep ++ replaceAllAux fuel (List.drop pat.length (c :: rest)) pat rep
      else c :: replaceAllAux fuel rest pat rep
  termination_by structural fuel s pat rep => fuel

/-- `str.replace` entry point. -/
def strReplaceAll (s pat rep : String) : String :=
  String.mk (replaceAllAux s.toList.length s.toList pat.toList rep.toList)

/-- The shared tail of `_skill_read` on resolved strings: path-traversal
guard, `os.path.isfile`, then the read with the empty/truncation
messages; read errors are caught only by the generic `except Exception`
(so a raced-away file or a directory comes back with the exception class
in the message). -/
def skillReadS (w : World) (cfg : ExecCfg) (name file target skillReal : String) : String :=
  if !strStartsWith target (skillReal ++ "/") && target != skillReal then
    "(error: path traversal is not allowed)"
  else if !w.isFile target then s!"(error: file '{file}' not found in skill '{name}')"
  else
    match w.fsRead target with
    | .ok content =>
        if content = "" then "(file is empty)"
        else if content.length > cfg.maxOutput then
          strTake content cfg.maxOutput ++ s!"\n... (truncated, total {content.length} chars)"
        else content
    | .notFound => "(error: FileNotFoundError: [Errno 2] No such file or directory: " ++
        String.mk (chApos :: target.toList) ++ String.mk [chApos] ++ ")"
    | .isDir => "(error: IsADirectoryError: [Errno 21] Is a directory: " ++
        String.mk (chApos :: target.toList) ++ String.mk [chApos] ++ ")"
    | .exc n m => s!"(error: {n}: {m})"

/-- The two `os.path.realpath` calls of `_skill_read`
(`realpath(join(skill_path, file))`, then `realpath(skill_path)`), both
outside any `try`: a path with an embedded null byte makes them raise
`ValueError`, which escapes `execute`. -/
def skillReadGo (w : World) (cfg : ExecCfg) (name skillPath file : String) :
    Except PyExc String :=
  match w.realp (osJoin skillPath file) with
  | none => .error .valueError
  | some target =>
      match w.realp skillPath with
      | none => .error .valueError
      | some skillReal => .ok (skillReadS w cfg name file target skillReal)

/-- `_skill_read` on raw values: name-required guard (truthiness), then
`os.path.join(skills_dir, name)` raises `TypeError` for a truthy
non-string name; after the `isdir` check a falsy `file` defaults to
`SKILL.md` and a truthy non-string `file` raises at its `os.path.join`;
the realpath calls can raise `ValueError` on a null byte — all outside
any `try`.  A null byte in `name` alone cannot reach the realpaths: it
makes `os.stat` raise inside `os.path.isdir`, which returns `False`, so
the not-found string is returned first. -/
def skillReadX (w : World) (cfg : ExecCfg) (nameV fileV : JVal) : Except PyExc String :=
  if !jtruthy nameV then .ok "(error: skill name is required)"
  else
    match nameV with
    | .str name =>
        let skillPath := osJoin cfg.skillsDir name
        if !w.isDir skillPath then .ok s!"(error: skill '{name}' not found)"
        else if jtruthy fileV then
          match fileV with
          | .str file => skillReadGo w cfg name skillPath file
          | _ => .error .typeError
        else skillReadGo w cfg name skillPath "SKILL.md"
    | _ => .error .typeError

/-- The subprocess tail of `_skill_exec`: output assembly as in
`_shell_execute` (a missing working directory is caught only by the
generic `except Exception` here), then the sanitisation pass replacing
the absolute scripts directory with `skills/{name}/scripts/`. -/
def skillExecRun (w : World) (cfg : ExecCfg) (name scriptsDir scriptsReal command : String) : String :=
  match w.run command with
  | .timedOut => s!"(error: script timed out after {cfg.timeout}s)"
  | .cwdMissing => "(error: FileNotFoundError: [Errno 2] No such file or directory: " ++
      String.mk (chApos :: cfg.agentHome.toList) ++ String.mk [chApos] ++ ")"
  | .exc n m => s!"(error: {n}: {m})"
  | .completed out err rc =>
      let output := out ++ err
      let output1 := if pyStripStr output = "" then s!"(no output, exit code: {rc})" else output
      let output2 :=
        if output1.length > cfg.maxOutput then
          strTake output1 cfg.maxOutput ++ s!"\n... (truncated, total {output1.length} chars)"
        else output1
      let relativePrefix := s!"skills/{name}/scripts/"
      let output3 :=
        if containsSub output2 scriptsDir then
          strReplaceAll (strReplaceAll output2 (scriptsDir ++ "/") relativePrefix)
            scriptsDir (pyRstripSet relativePrefix ['/'])
        else output2
      if containsSub output3 scriptsReal && scriptsReal != scriptsDir then
        strReplaceAll (strReplaceAll output3 (scriptsReal ++ "/") relativePrefix)
          scriptsReal (pyRstripSet relativePrefix ['/'])
      else output3

/-- The realpath-and-run tail of `_skill_exec` for a string script: the
two `os.path.realpath` calls (`realpath(join(scripts_dir, script))`,
then `realpath(scripts_dir)`) sit outside any `try` and raise
`ValueError` on an embedded null byte; then the traversal and `isfile`
guards, and `command += " " + args` (raising `TypeError` for a truthy
non-string `args`). -/
def skillExecGo (w : World) (cfg : ExecCfg) (name scriptsDir script : String)
    (argsV : JVal) : Except PyExc String :=
  match w.realp (osJoin scriptsDir script) with
  | none => .error .valueError
  | some target =>
      match w.realp scriptsDir with
      | none => .error .valueError
      | some scriptsReal =>
          if !strStartsWith target (scriptsReal ++ "/") && target != scriptsReal then
            .ok "(error: path traversal is not allowed)"
          else if !w.isFile target then
            .ok s!"(error: script '{script}' not found in skill '{name}')"
          else if jtruthy argsV then
            match argsV with
            | .str a => .ok (skillExecRun w cfg name scriptsDir scriptsReal (target ++ " " ++ a))
            | _ => .error .typeError
          else .ok (skillExecRun w cfg name scriptsDir scriptsReal target)

/-- `_skill_exec` on raw values, following the source order: the
name/script-required guard (truthiness), `os.path.join(skills_dir, name)`
(raising for a truthy non-string name), the two `isdir` checks (which
swallow the null-byte `ValueError` and return `False`, so a null byte in
`name` gets the not-found string instead of raising), then
`os.path.join(scripts_dir, script)` (raising for a truthy non-string
script) and the realpath/run tail. -/
def skillExecX (w : World) (cfg : ExecCfg) (nameV scriptV argsV : JVal) : Except PyExc String :=
  if !jtruthy nameV || !jtruthy scriptV then
    .ok "(error: skill name and script are required)"
  else
    match nameV with
    | .str name =>
        let skillPath := osJoin cfg.skillsDir name
        if !w.isDir skillPath then .ok s!"(error: skill '{name}' not found)"
        else
          let scriptsDir := osJoin skillPath "scripts"
          if !w.isDir scriptsDir then .ok s!"(error: skill '{name}' has no scripts/ directory)"
          else
            match scriptV with
            | .str script => skillExecGo w cfg name scriptsDir script argsV
            | _ => .error .typeError
    | _ => .error .typeError

/-! ### `_community` -/

/-- `_community` on raw values: every branch returns a string and nothing
escapes — the action guards use truthiness and tuple membership (total on
any value), the params only feed the HTTP oracle, and the whole request
sits inside `try` with `ConnectionError`/`Timeout`/`Exception` handlers
(the hard-coded default `timeout=15` appears in the timeout message). -/
def communityX (w : World) (actionV contentV postIdV keywordV : JVal) : String :=
  if !jtruthy actionV then "(error: action is required)"
  else
    let isKnown := match actionV with
      | .str a => a == "look" || a == "post" || a == "reply" || a == "check"
      | _ => false
    if !isKnown then
      s!"(error: unknown action '{pyStr actionV}'. Use: look, post, reply, check)"
    else
      let isPost := match actionV with | .str a => a == "post" | _ => false
      let isReply := match actionV with | .str a => a == "reply" | _ => false
      if isPost && !jtruthy contentV then "(error: content is required for post action)"
      else if isReply && !jtruthy postIdV then "(error: post_id is required for reply action)"
      else if isReply && !jtruthy contentV then "(error: content is required for reply action)"
      else
        match w.http with
        | .connectionError => "(error: cannot connect to community server)"
        | .timedOut => "(error: community server timed out after 15s)"
        | .exc n m => s!"(error: {n}: {m})"
        | .success status body parsed =>
            if status == 401 then "(error: community authentication failed — invalid key)"
            else if status == 422 then s!"(error: invalid request — {body})"
            else if status != 200 then s!"(error: community server returned {status})"
            else
              match parsed with
              | .error (n, m) => s!"(error: {n}: {m})"
              | .ok (some t) => t
              | .ok none => "(no response)"

/-! ### The dispatcher -/

/-- `ToolExecutor.execute`: dispatch on the tool name, reading each
argument with its `args.get` default; the path arguments of the file
tools pass through `_resolve_path` first, and `append` is reduced to its
truthiness (its only use). -/
def executeX (w : World) (cfg : ExecCfg) (name : String)
    (args : List (String × JVal)) : Except PyExc String :=
  if name == "shell_execute" then
    shellExecuteX w cfg (aget args "command" (.str ""))
  else if name == "read_file" then
    match resolvePathJ cfg.agentHome (aget args "path" (.str "")) with
    | .error e => .error e
    | .ok pv => readFileX w cfg pv
  else if name == "write_file" then
    match resolvePathJ cfg.agentHome (aget args "path" (.str "")) with
    | .error e => .error e
    | .ok pv => writeFileX w cfg pv (aget args "content" (.str ""))
        (jtruthy (aget args "append" (.bool false)))
  else if name == "edit_file" then
    match resolvePathJ cfg.agentHome (aget args "path" (.str "")) with
    | .error e => .error e
    | .ok pv => editFileX w cfg pv (aget args "old_str" (.str "")) (aget args "new_str" (.str ""))
  else if name == "skill_read" then
    skillReadX w cfg (aget args "name" (.str "")) (aget args "file" (.str ""))
  else if name == "skill_exec" then
    skillExecX w cfg (aget args "name" (.str "")) (aget args "script" (.str ""))
      (aget args "args" (.str ""))
  else if name == "community" then
    .ok (communityX w (aget args "action" (.str "")) (aget args "content" (.str ""))
      (aget args "post_id" (.str "")) (aget args "keyword" (.str "")))
  else .ok (s!"(error: unknown tool " ++ String.mk (chApos :: name.toList) ++
    String.mk [chApos] ++ ")")

/-- Whether a string argument value is free of embedded null bytes
(vacuously true for non-strings — their typing is checked
separately). -/
def noNullArg : JVal → Bool
  | .str s => strNoNull s
  | _ => true

/-- The argument dictionaries under which no tool body reaches a raising
operation: the arguments that flow into `os.path`, `shlex`, `re` or
string concatenation outside a `try` are strings whenever they are
used (falsy skill names/scripts/files take an early return or a string
default instead), and the skill `file`/`script` arguments — the only
ones that reach the unguarded `os.path.realpath` — are free of embedded
null bytes.  A null byte elsewhere never raises: the file tools hit it
inside their `try` blocks or inside `is_cloaked_path`'s handler,
`os.path.isfile`/`isdir` swallow it (so a null-byte skill `name` takes
the not-found return before any realpath), and a null-byte shell
command or skill `args` reaches `subprocess.run` inside the `try`. -/
def wellTypedArgs (name : String) (args : List (String × JVal)) : Bool :=
  if name == "shell_execute" then (aget args "command" (.str "")).isStr
  else if name == "read_file" then (aget args "path" (.str "")).isStr
  else if name == "write_file" then (aget args "path" (.str "")).isStr
  else if name == "edit_file" then (aget args "path" (.str "")).isStr
  else if name == "skill_read" then
    let n := aget args "name" (.str "")
    let f := aget args "file" (.str "")
    !jtruthy n || (n.isStr && (!jtruthy f || (f.isStr && noNullArg f)))
  else if name == "skill_exec" then
    let n := aget args "name" (.str "")
    let sc := aget args "script" (.str "")
    let a := aget args "args" (.str "")
    !jtruthy n || !jtruthy sc ||
      (n.isStr && sc.isStr && noNullArg sc && (!jtruthy a || a.isStr))
  else true

/-! ### Totality of the dispatcher on well-typed arguments

Two facts about the world's path oracles, true of CPython, are needed
for the skill tools: `os.path.realpath` (with the default
`strict=False`) raises only the `ValueError` for an embedded null byte,
so it succeeds on every null-free path; and `os.path.isdir` never
answers `True` for a path with a null byte (`os.stat` raises the
`ValueError`, which `isdir` catches, returning `False`). -/

/-- An `isStr` value is a `.str`. -/
theorem jval_isStr_exists (v : JVal) (h : v.isStr = true) : ∃ c, v = JVal.str c := by
  cases v <;> first | exact ⟨_, rfl⟩ | simp [JVal.isStr] at h

theorem strNoNull_append {a b : String} (ha : strNoNull a = true)
    (hb : strNoNull b = true) : strNoNull (a ++ b) = true := by
  simp only [strNoNull, String.toList, String.data_append, List.all_append,
    Bool.and_eq_true] at *
  exact ⟨ha, hb⟩

theorem strNoNull_osJoin {a b : String} (ha : strNoNull a = true)
    (hb : strNoNull b = true) : strNoNull (osJoin a b) = true := by
  unfold osJoin
  split
  · exact hb
  · split
    · exact strNoNull_append ha hb
    · exact strNoNull_append (strNoNull_append ha (by decide)) hb

/-- Whether an `execute` result is a returned string (no escaped
exception). -/
def isOkE : Except PyExc String → Bool
  | .ok _ => true
  | .error _ => false

theorem isOkE_exists (e : Except PyExc String) (h : isOkE e = true) :
    ∃ s, e = .ok s := by
  cases e with
  | ok s => exact ⟨s, rfl⟩
  | error x => simp [isOkE] at h

/-- The realpath tail of `_skill_read` returns a string when the skill
path and file are null-free and realpath succeeds on null-free paths. -/
theorem skillReadGo_ok (w : World) (cfg : ExecCfg)
    (hrp : ∀ s, strNoNull s = true → (w.realp s).isSome = true)
    {name skillPath file : String}
    (hsp : strNoNull skillPath = true) (hf : strNoNull file = true) :
    isOkE (skillReadGo w cfg name skillPath file) = true := by
  unfold skillReadGo
  cases hr1 : w.realp (osJoin skillPath file) with
  | none =>
      have hs := hrp _ (strNoNull_osJoin hsp hf)
      rw [hr1] at hs
      simp at hs
  | some target =>
      cases hr2 : w.realp skillPath with
      | none =>
          have hs := hrp _ hsp
          rw [hr2] at hs
          simp at hs
      | some skillReal => rfl

/-- `_skill_read` returns a string whenever its name/file arguments are
strings where they are used and the file argument has no null byte. -/
theorem skillReadX_ok (w : World) (cfg : ExecCfg)
    (hrp : ∀ s, strNoNull s = true → (w.realp s).isSome = true)
    (hdir : ∀ s, w.isDir s = true → strNoNull s = true)
    (nameV fileV : JVal)
    (h : (!jtruthy nameV ||
          (nameV.isStr && (!jtruthy fileV || (fileV.isStr && noNullArg fileV)))) = true) :
    isOkE (skillReadX w cfg nameV fileV) = true := by
  unfold skillReadX
  split
  · rfl
  next hnt =>
    have hn : jtruthy nameV = true := by
      cases hq : jtruthy nameV
      · exact absurd (by rw [hq]; rfl) hnt
      · rfl
    rw [hn] at h
    simp only [Bool.not_true, Bool.false_or, Bool.and_eq_true] at h
    obtain ⟨name, rfl⟩ := jval_isStr_exists _ h.1
    dsimp only
    split
    · rfl
    next hdt =>
      have hsd : w.isDir (osJoin cfg.skillsDir name) = true := by
        cases hq : w.isDir (osJoin cfg.skillsDir name)
        · exact absurd (by rw [hq]; rfl) hdt
        · rfl
      have hsp : strNoNull (osJoin cfg.skillsDir name) = true := hdir _ hsd
      split
      next hft =>
        rw [hft] at h
        simp only [Bool.not_true, Bool.false_or, Bool.and_eq_true] at h
        obtain ⟨file, rfl⟩ := jval_isStr_exists _ h.2.1
        exact skillReadGo_ok w cfg hrp hsp h.2.2
      next => exact skillReadGo_ok w cfg hrp hsp (by decide)

/-- The realpath-and-run tail of `_skill_exec` returns a string when the
scripts directory and script are null-free, realpath succeeds on
null-free paths, and `args` is a string where used. -/
theorem skillExecGo_ok (w : World) (cfg : ExecCfg)
    (hrp : ∀ s, strNoNull s = true → (w.realp s).isSome = true)
    {name scriptsDir script : String} {argsV : JVal}
    (hsd : strNoNull scriptsDir = true) (hsc : strNoNull script = true)
    (ha : (!jtruthy argsV || argsV.isStr) = true) :
    isOkE (skillExecGo w cfg name scriptsDir script argsV) = true := by
  unfold skillExecGo
  cases hr1 : w.realp (osJoin scriptsDir script) with
  | none =>
      have hs := hrp _ (strNoNull_osJoin hsd hsc)
      rw [hr1] at hs
      simp at hs
  | some target =>
      cases hr2 : w.realp scriptsDir with
      | none =>
          have hs := hrp _ hsd
          rw [hr2] at hs
          simp at hs
      | some scriptsReal =>
          dsimp only
          split
          · rfl
          · split
            · rfl
            · split
              next hat =>
                rw [hat] at ha
                simp only [Bool.not_true, Bool.false_or] at ha
                obtain ⟨a, rfl⟩ := jval_isStr_exists _ ha
                rfl
              next => rfl

/-- `_skill_exec` returns a string whenever its name/script/args
arguments are strings where they are used and the script argument has
no null byte. -/
theorem skillExecX_ok (w : World) (cfg : ExecCfg)
    (hrp : ∀ s, strNoNull s = true → (w.realp s).isSome = true)
    (hdir : ∀ s, w.isDir s = true → strNoNull s = true)
    (nameV scriptV argsV : JVal)
    (h : (!jtruthy nameV || !jtruthy scriptV ||
          (nameV.isStr && scriptV.isStr && noNullArg scriptV &&
            (!jtruthy argsV || argsV.isStr))) = true) :
    isOkE (skillExecX w cfg nameV scriptV argsV) = true := by
  unfold skillExecX
  split
  · rfl
  next hnt =>
    have hgate : (!jtruthy nameV || !jtruthy scriptV) = false := by
      cases hq : (!jtruthy nameV || !jtruthy scriptV)
      · rfl
      · exact absurd hq hnt
    rw [hgate, Bool.false_or] at h
    simp only [Bool.and_eq_true] at h
    obtain ⟨⟨⟨hni, hsi⟩, hnn⟩, hai⟩ := h
    obtain ⟨name, rfl⟩ := jval_isStr_exists _ hni
    obtain ⟨script, rfl⟩ := jval_isStr_exists _ hsi
    dsimp only
    split
    · rfl
    · split
      · rfl
      next hdt2 =>
        have hsd2 : w.isDir (osJoin (osJoin cfg.skillsDir name) "scripts") = true := by
          cases hq : w.isDir (osJoin (osJoin cfg.skillsDir name) "scripts")
          · exact absurd (by rw [hq]; rfl) hdt2
          · rfl
        exact skillExecGo_ok w cfg hrp (hdir _ hsd2) hnn hai

/-- A concrete effect world for the C9 instances: identity path
resolution, whitespace tokenisation, no files, inert subprocess and
HTTP. -/
def w9 : World :=
  ⟨fun p => some p, fun p => some p, fun c => pySplitWs c,
   fun _ => .completed "" "" 0,
   fun _ => .notFound, fun _ => .ok, fun _ => .ok, fun _ => false, fun _ => false,
   .connectionError⟩

/-- A concrete executor configuration for the C9 instances. -/
def cfg9 : ExecCfg :=
  ⟨"/home/agent", "/opt/awakener", 30, 4000, "/opt/awakener/data/skills", "", "",
   ["/opt/awakener"]⟩

/-- C9 counterexample: `execute("read_file", \x7b"path": 1\x7d)` raises
`TypeError` — `_resolve_path` passes the truthy non-string to
`os.path.isabs`, whose `os.fspath` raises outside every `try` — instead
of returning an in-band string. -/
theorem execute_raises_typeerror_on_int_path :
    executeX w9 cfg9 "read_file" [("path", JVal.num 1)] = .error .typeError := rfl

/-- C9 (amended): for every configuration and every world whose path
oracles behave as CPython's do — `os.path.realpath` succeeds on every
null-free path (its only raise being the null-byte `ValueError`) and
`os.path.isdir` never answers `True` for a null-byte path —
`ToolExecutor.execute` on a tool name (known or unknown) and a
well-typed argument dictionary returns a single string; timeouts,
missing files, bad paths and other tool errors come back as in-band
strings, never as exceptions. -/
theorem execute_returns_string_for_welltyped_args (w : World) (cfg : ExecCfg)
    (hrp : ∀ s, strNoNull s = true → (w.realp s).isSome = true)
    (hdir : ∀ s, w.isDir s = true → strNoNull s = true)
    (name : String) (args : List (String × JVal))
    (h : wellTypedArgs name args = true) :
    ∃ s, executeX w cfg name args = .ok s := by
  unfold executeX
  unfold wellTypedArgs at h
  cases h1 : name == "shell_execute" with
  | true =>
      rw [h1, if_pos rfl] at h
      obtain ⟨c, hc⟩ := jval_isStr_exists _ h
      rw [hc]
      exact ⟨_, rfl⟩
  | false =>
  rw [h1, if_neg Bool.false_ne_true] at h
  cases h2 : name == "read_file" with
  | true =>
      rw [h2, if_pos rfl] at h
      obtain ⟨c, hc⟩ := jval_isStr_exists _ h
      rw [hc]
      exact ⟨_, rfl⟩
  | false =>
  rw [h2, if_neg Bool.false_ne_true] at h
  cases h3 : name == "write_file" with
  | true =>
      rw [h3, if_pos rfl] at h
      obtain ⟨c, hc⟩ := jval_isStr_exists _ h
      rw [hc]
      exact ⟨_, rfl⟩
  | false =>
  rw [h3, if_neg Bool.false_ne_true] at h
  cases h4 : name == "edit_file" with
  | true =>
      rw [h4, if_pos rfl] at h
      obtain ⟨c, hc⟩ := jval_isStr_exists _ h
      rw [hc]
      exact ⟨_, rfl⟩
  | false =>
  rw [h4, if_neg Bool.false_ne_true] at h
  cases h5 : name == "skill_read" with
  | true =>
      rw [h5, if_pos rfl] at h
      exact isOkE_exists _ (skillReadX_ok w cfg hrp hdir _ _ h)
  | false =>
  rw [h5, if_neg Bool.false_ne_true] at h
  cases h6 : name == "skill_exec" with
  | true =>
      rw [h6, if_pos rfl] at h
      exact isOkE_exists _ (skillExecX_ok w cfg hrp hdir _ _ _ h)
  | false =>
  rw [h6, if_neg Bool.false_ne_true] at h
  cases h7 : name == "community" with
  | true => exact ⟨_, rfl⟩
  | false => exact ⟨_, rfl⟩

/-- A CPython-like world in which every directory exists: `realp`
succeeds exactly on null-free paths, as `os.path.realpath` does. -/
def wNull : World :=
  ⟨fun p => some p, fun p => if strNoNull p then some p else none,
   fun c => pySplitWs c, fun _ => .completed "" "" 0,
   fun _ => .notFound, fun _ => .ok, fun _ => .ok, fun _ => false, fun _ => true,
   .connectionError⟩

/-- The null-byte escape the model captures: when the skill directory
exists, `execute("skill_read", \x7b"name": "x", "file": "\u0000"\x7d)` —
whose arguments are all strings — raises `ValueError` from the
unguarded `os.path.realpath` in `_skill_read`. -/
theorem execute_raises_valueerror_on_null_file :
    executeX wNull cfg9 "skill_read"
      [("name", JVal.str "x"), ("file", JVal.str (String.mk [chNull]))] =
    .error .valueError := rfl

/-- C9 witness: the amended theorem at `read_file` with a string path,
in the world `w9`, whose identity `realp` is total and whose `isDir` is
constantly `False` (so both oracle hypotheses hold). -/
theorem execute_returns_string_for_welltyped_args_witness :
    wellTypedArgs "read_file" [("path", JVal.str "/etc/hostname")] = true ∧
    ∃ s, executeX w9 cfg9 "read_file" [("path", JVal.str "/etc/hostname")] = .ok s :=
  ⟨rfl, execute_returns_string_for_welltyped_args w9 cfg9
    (fun _ _ => rfl) (fun _ hq => Bool.noConfusion hq) "read_file"
    [("path", JVal.str "/etc/hostname")] rfl⟩

/-! ## A heap model of `_merge_delta` (`activator/snapshot.py`)

The merge mutates Python objects in place; the frame property — the
caller's `old_snapshot` is structurally unmodified because the merge
works on `copy.deepcopy(old_snapshot)` — is about object identity, which
the value-level model above cannot express.  Here the same source
function is embedded over an explicit heap: `HVal` is a Python value
whose containers are references into a heap of mutable objects;
`readVal` decodes a heap value back into the value-level `Yaml` type.
Deep equality (`==`), used by the update/remove/purge matching, goes
through readback at a caller-supplied recursion budget `F` (Python's
recursion is unbounded; the merged snapshots are small acyclic YAML
documents, and the budget does not affect where writes go). -/

/-- A Python runtime value: immutable scalars inline, mutable containers
as references into the heap. -/
inductive HVal where
  | str (s : String)
  | int (n : Int)
  | bool (b : Bool)
  | null
  | ref (a : Nat)
deriving DecidableEq

/-- A heap object: a Python `list` or `dict` (insertion ordered). -/
inductive HObj where
  | list (xs : List HVal)
  | dict (fs : List (String × HVal))
deriving DecidableEq

/-- The heap: address `a` is the object at index `a`; allocation
appends. -/
abbrev Heap := List HObj

def hget (h : Heap) (a : Nat) : Option HObj := h[a]?

def hset (h : Heap) (a : Nat) (o : HObj) : Heap := h.set a o

def halloc (h : Heap) (o : HObj) : Heap × Nat := (h ++ [o], h.length)

/-- `d.get(k)` on a dict object's field list. -/
def fdget (d : List (String × HVal)) (k : String) : Option HVal :=
  match d.find? (fun p => p.1 == k) with
  | some p => some p.2
  | none => none

/-- `d[k] = v` on a dict object's field list: replace in place if the key
exists (keeping its position), otherwise append. -/
def fdset (d : List (String × HVal)) (k : String) (v : HVal) :
    List (String × HVal) :=
  if d.any (fun p => p.1 == k) then
    d.map (fun p => if p.1 == k then (k, v) else p)
  else
    d ++ [(k, v)]

/-- `d.update(other)`: assign every field of `other` in order. -/
def foverlay (fs : List (String × HVal)) : List (String × HVal) → List (String × HVal)
  | [] => fs
  | (k, v) :: rest => foverlay (fdset fs k v) rest

/-- Python truthiness of a heap value (one heap read for containers; a
dangling reference cannot arise and defaults to falsy). -/
def pyTruthyH (h : Heap) : HVal → Bool
  | .str s => !s.isEmpty
  | .int n => n != 0
  | .bool b => b
  | .null => false
  | .ref a =>
      match hget h a with
      | some (.list xs) => !xs.isEmpty
      | some (.dict fs) => !fs.isEmpty
      | none => false

/-! Readback of a heap value into the value-level `Yaml` type.  Every
recursive step consumes fuel; `none` means the budget ran out (or a
dangling reference). -/

mutual

def readVal : Nat → Heap → HVal → Option Yaml
  | 0, _, _ => none
  | _ + 1, _, .str s => some (.str s)
  | _ + 1, _, .int n => some (.int n)
  | _ + 1, _, .bool b => some (.bool b)
  | _ + 1, _, .null => some .null
  | fuel + 1, h, .ref a =>
      match hget h a with
      | some (.list xs) => (readList fuel h xs).map Yaml.list
      | some (.dict fs) => (readFields fuel h fs).map Yaml.dict
      | none => none

def readList : Nat → Heap → List HVal → Option (List Yaml)
  | 0, _, _ => none
  | _ + 1, _, [] => some []
  | fuel + 1, h, x :: xs =>
      match readVal fuel h x, readList fuel h xs with
      | some y, some ys => some (y :: ys)
      | _, _ => none

def readFields : Nat → Heap → List (String × HVal) →
    Option (List (String × Yaml))
  | 0, _, _ => none
  | _ + 1, _, [] => some []
  | fuel + 1, h, (k, v) :: fs =>
      match readVal fuel h v, readFields fuel h fs with
      | some y, some ys => some ((k, y) :: ys)
      | _, _ => none

end

/-- Python `==` between heap values, via readback (the value-level
`Yaml.beq` is Python's structural `==` on parsed YAML data). -/
def hvalEq (F : Nat) (h : Heap) (v1 v2 : HVal) : Bool :=
  match readVal F h v1, readVal F h v2 with
  | some y1, some y2 => Yaml.beq y1 y2
  | _, _ => false

/-! `copy.deepcopy`: copy the object graph into fresh allocations
(scalars are immutable and copied by value).  CPython memoises shared
subobjects and handles cycles; this model copies per occurrence and runs
out of fuel on a cycle — the readback value of the copy and the
addresses it occupies are the same. -/

mutual

def deepCopyV : Nat → Heap → HVal → Option (Heap × HVal)
  | 0, _, _ => none
  | _ + 1, h, .str s => some (h, .str s)
  | _ + 1, h, .int n => some (h, .int n)
  | _ + 1, h, .bool b => some (h, .bool b)
  | _ + 1, h, .null => some (h, .null)
  | fuel + 1, h, .ref a =>
      match hget h a with
      | some (.list xs) =>
          match deepCopyL fuel h xs with
          | some (h1, ys) =>
              let p := halloc h1 (.list ys)
              some (p.1, .ref p.2)
          | none => none
      | some (.dict fs) =>
          match deepCopyF fuel h fs with
          | some (h1, gs) =>
              let p := halloc h1 (.dict gs)
              some (p.1, .ref p.2)
          | none => none
      | none => none

def deepCopyL : Nat → Heap → List HVal → Option (Heap × List HVal)
  | 0, _, _ => none
  | _ + 1, h, [] => some (h, [])
  | fuel + 1, h, x :: xs =>
      match deepCopyV fuel h x with
      | some (h1, y) =>
          match deepCopyL fuel h1 xs with
          | some (h2, ys) => some (h2, y :: ys)
          | none => none
      | none => none

def deepCopyF : Nat → Heap → List (String × HVal) →
    Option (Heap × List (String × HVal))
  | 0, _, _ => none
  | _ + 1, h, [] => some (h, [])
  | fuel + 1, h, (k, v) :: fs =>
      match deepCopyV fuel h v with
      | some (h1, y) =>
          match deepCopyF fuel h1 fs with
          | some (h2, ys) => some (h2, (k, y) :: ys)
          | none => none
      | none => none

end

/-! ### Heap-level mutation primitives -/

/-- `d[k] = v` on the dict object at `a`; `none` models the `TypeError`
of item assignment on a non-dict. -/
def dWrite (h : Heap) (a : Nat) (k : String) (v : HVal) : Option Heap :=
  match hget h a with
  | some (.dict fs) => some (hset h a (.dict (fdset fs k v)))
  | _ => none

/-- `lst.append(v)` on the list object at `a`; `none` models the
`AttributeError` of `.append` on a non-list. -/
def lAppend (h : Heap) (a : Nat) (v : HVal) : Option Heap :=
  match hget h a with
  | some (.list xs) => some (hset h a (.list (xs ++ [v])))
  | _ => none

/-- `if key not in snapshot: snapshot[key] = <fresh o>` on the dict at
`snap`. -/
def ensureFieldH (h : Heap) (snap : Nat) (key : String) (o : HObj) :
    Option Heap :=
  match hget h snap with
  | some (.dict fs) =>
      if (fdget fs key).isSome then some h
      else
        let p := halloc h o
        some (hset p.1 snap (.dict (fdset fs key (.ref p.2))))
  | _ => none

/-- `.get(k)` on a block value; `none` models the `AttributeError` when
the block is not a dict; `some none` is a Python `None` result. -/
def blockGet (h : Heap) (blk : HVal) (k : String) : Option (Option HVal) :=
  match blk with
  | .ref a =>
      match hget h a with
      | some (.dict fs) => some (fdget fs k)
      | _ => none
  | _ => none

/-- `delta.get(name) or \x7b\x7d`: a falsy result is replaced by a fresh
empty dict (allocated, as the Python literal is). -/
def getBlockH (h : Heap) (delta : HVal) (name : String) :
    Option (Heap × HVal) :=
  match blockGet h delta name with
  | none => none
  | some r =>
      match r with
      | some v =>
          if pyTruthyH h v then some (h, v)
          else
            let p := halloc h (.dict [])
            some (p.1, .ref p.2)
      | none =>
          let p := halloc h (.dict [])
          some (p.1, .ref p.2)

/-- `entry.get(key_field)` for a dict entry, with Python's `None` for a
missing key; `none` means the entry is not a dict (filtered out by the
`isinstance(entry, dict)` guards). -/
def entryKeyH (h : Heap) (e : HVal) (keyField : String) : Option HVal :=
  match e with
  | .ref a =>
      match hget h a with
      | some (.dict fs) =>
          some (match fdget fs keyField with | some v => v | none => .null)
      | _ => none
  | _ => none

/-! ### The meta stamp and the ADD phase on the heap -/

/-- The meta-stamping prologue: ensure `meta` exists, then set
`meta.round` and `meta.last_updated` on the meta object.  `none` models
the `TypeError`/`AttributeError` raised when the snapshot or an existing
`meta` value is not a dict. -/
def stampMetaHeap (h : Heap) (snap : Nat) (roundNum : Int) (now : String) :
    Option Heap :=
  match hget h snap with
  | some (.dict fs) =>
      match fdget fs "meta" with
      | none =>
          let p := halloc h (.dict [])
          let h1 := hset p.1 snap (.dict (fdset fs "meta" (.ref p.2)))
          match dWrite h1 p.2 "round" (.int roundNum) with
          | some h2 => dWrite h2 p.2 "last_updated" (.str now)
          | none => none
      | some (.ref m) =>
          match dWrite h m "round" (.int roundNum) with
          | some h1 => dWrite h1 m "last_updated" (.str now)
          | none => none
      | some _ => none
  | _ => none

/-- The append loop of the ADD phase: `existing` is the accumulated key
set (with Python `None` as `HVal.null`); membership is Python `==`. -/
def addEntriesH (F : Nat) : Heap → Nat → String → List HVal → List HVal →
    Option Heap
  | h, _, _, _, [] => some h
  | h, la, keyField, existing, e :: rest =>
      match entryKeyH h e keyField with
      | none => addEntriesH F h la keyField existing rest
      | some key =>
          if existing.any (fun k2 => hvalEq F h key k2) then
            addEntriesH F h la keyField existing rest
          else
            match lAppend h la e with
            | some h1 => addEntriesH F h1 la keyField (key :: existing) rest
            | none => none
  termination_by structural h la keyField existing es => es

/-- The key set harvested from an existing section list. -/
def existingKeysH (h : Heap) (keyField : String) (xs : List HVal) :
    List HVal :=
  xs.filterMap (fun e => entryKeyH h e keyField)

/-- Whether a value is (a reference to) a dict object. -/
def isDictRefH (h : Heap) (e : HVal) : Bool :=
  match e with
  | .ref a => match hget h a with | some (.dict _) => true | _ => false
  | _ => false

/-- The body of one ADD section once `new_entries` is a truthy list:
ensure the section, then dispatch on the section value — a list gets the
append loop; a `str` or dict iterates into characters / keys (no dict
entries) and raises only when a first appendable entry hits `.append`; a
non-iterable raises in the set comprehension. -/
def addSectionGoH (F : Nat) (h : Heap) (snap : Nat) (sect keyField : String)
    (newEntries : List HVal) : Option Heap :=
  match ensureFieldH h snap sect (.list []) with
  | none => none
  | some h1 =>
      match hget h1 snap with
      | some (.dict fs) =>
          match fdget fs sect with
          | some (.ref la) =>
              match hget h1 la with
              | some (.list xs) =>
                  addEntriesH F h1 la keyField (existingKeysH h1 keyField xs)
                    newEntries
              | some (.dict _) =>
                  if newEntries.any (fun e => isDictRefH h1 e) then none
                  else some h1
              | none => none
          | some (.str _) =>
              if newEntries.any (fun e => isDictRefH h1 e) then none
              else some h1
          | some _ => none
          | none => none
      | _ => none

/-- One section of the ADD phase on the heap (mirrors the first
`for section, key_field in _SECTION_KEYS.items()` loop body). -/
def addSectionH (F : Nat) (h : Heap) (snap : Nat) (addBlk : HVal)
    (sect keyField : String) : Option Heap :=
  match blockGet h addBlk sect with
  | none => none
  | some r =>
      match r with
      | none => some h
      | some v =>
          if !pyTruthyH h v then some h
          else
            match v with
            | .ref na =>
                match hget h na with
                | some (.list newEntries) =>
                    addSectionGoH F h snap sect keyField newEntries
                | _ => some h
            | _ => some h

/-- The ADD phase over all sections. -/
def addPhaseH (F : Nat) (snap : Nat) (addBlk : HVal) (h : Heap) :
    Option Heap :=
  SECTION_KEYS.foldlM (fun hh p => addSectionH F hh snap addBlk p.1 p.2) h

/-! ### The UPDATE phase on the heap -/

/-- `for k, v in patch.items(): entry[k] = v` on the entry dict at
`ea`. -/
def overlayH (h : Heap) (ea : Nat) : List (String × HVal) → Option Heap
  | [] => some h
  | (k, v) :: rest =>
      match dWrite h ea k v with
      | some h1 => overlayH h1 ea rest
      | none => none

/-- Find the first dict entry of the section list whose key field equals
`matchVal` under Python `==`, returning its address. -/
def findEntryH (F : Nat) (h : Heap) (keyField : String) (matchVal : HVal) :
    List HVal → Option Nat
  | [] => none
  | e :: rest =>
      match e with
      | .ref a =>
          match hget h a with
          | some (.dict fs) =>
              let key := match fdget fs keyField with | some v => v | none => HVal.null
              if hvalEq F h key matchVal then some a
              else findEntryH F h keyField matchVal rest
          | _ => findEntryH F h keyField matchVal rest
      | _ => findEntryH F h keyField matchVal rest

/-- Fold the update patches of one section: each patch re-reads the
section through the heap (as the source's inner `for entry in
snapshot[section]` does), finds its match and overlays the patch fields
onto the matched entry in place.  A `str` section iterates into
characters and a dict into keys (no dict entries, nothing matches); a
non-iterable raises. -/
def applyPatchesH (F : Nat) (snap : Nat) (sect keyField : String) :
    Heap → List HVal → Option Heap
  | h, [] => some h
  | h, p :: rest =>
      match p with
      | .ref pa =>
          match hget h pa with
          | some (.dict patch) =>
              match fdget patch keyField with
              | none => applyPatchesH F snap sect keyField h rest
              | some .null => applyPatchesH F snap sect keyField h rest
              | some matchVal =>
                  match hget h snap with
                  | some (.dict fs) =>
                      match fdget fs sect with
                      | some (.ref la) =>
                          match hget h la with
                          | some (.list xs) =>
                              match findEntryH F h keyField matchVal xs with
                              | some ea =>
                                  match overlayH h ea patch with
                                  | some h1 => applyPatchesH F snap sect keyField h1 rest
                                  | none => none
                              | none => applyPatchesH F snap sect keyField h rest
                          | some (.dict _) => applyPatchesH F snap sect keyField h rest
                          | none => none
                      | some (.str _) => applyPatchesH F snap sect keyField h rest
                      | some _ => none
                      | none => none
                  | _ => none
          | _ => applyPatchesH F snap sect keyField h rest
      | _ => applyPatchesH F snap sect keyField h rest
  termination_by structural h ps => ps

/-- One section of the UPDATE phase on the heap. -/
def updateSectionH (F : Nat) (h : Heap) (snap : Nat) (updBlk : HVal)
    (sect keyField : String) : Option Heap :=
  match blockGet h updBlk sect with
  | none => none
  | some r =>
      match r with
      | none => some h
      | some v =>
          if !pyTruthyH h v then some h
          else
            match v with
            | .ref ua =>
                match hget h ua with
                | some (.list patches) =>
                    match hget h snap with
                    | some (.dict fs) =>
                        if (fdget fs sect).isSome then
                          applyPatchesH F snap sect keyField h patches
                        else some h
                    | _ => none
                | _ => some h
            | _ => some h

/-- The UPDATE phase over all list sections. -/
def updatePhaseH (F : Nat) (snap : Nat) (updBlk : HVal) (h : Heap) :
    Option Heap :=
  SECTION_KEYS.foldlM (fun hh p => updateSectionH F hh snap updBlk p.1 p.2) h

/-- The `update.environment` shallow dict merge: a truthy dict updates
the environment object in place (ensuring it first); `.update` on an
existing non-dict environment value raises. -/
def envPhaseH (h : Heap) (snap : Nat) (updBlk : HVal) : Option Heap :=
  match blockGet h updBlk "environment" with
  | none => none
  | some r =>
      match r with
      | none => some h
      | some v =>
          if !pyTruthyH h v then some h
          else
            match v with
            | .ref ea =>
                match hget h ea with
                | some (.dict envUpd) =>
                    match ensureFieldH h snap "environment" (.dict []) with
                    | none => none
                    | some h1 =>
                        match hget h1 snap with
                        | some (.dict fs1) =>
                            match fdget fs1 "environment" with
                            | some (.ref ca) =>
                                match hget h1 ca with
                                | some (.dict cur) =>
                                    some (hset h1 ca (.dict (foverlay cur envUpd)))
                                | _ => none
                            | some _ => none
                            | none => none
                        | _ => none
                | _ => some h
            | _ => some h

/-! ### The REMOVE phase and the purge on the heap -/

/-- The truthy key values harvested from a removal list. -/
def removeKeyValsH (h : Heap) (keyField : String) (removals : List HVal) :
    List HVal :=
  removals.filterMap (fun e =>
    match e with
    | .ref a =>
        match hget h a with
        | some (.dict fs) =>
            match fdget fs keyField with
            | some v => if pyTruthyH h v then some v else none
            | none => none
        | _ => none
    | _ => none)

/-- Whether a value is a dict entry whose key field is `==` to a value
in the removal set (a missing key is Python `None`, never in the
truthy-only set). -/
def removedEntryH (F : Nat) (h : Heap) (keyField : String)
    (rk : List HVal) (e : HVal) : Bool :=
  match e with
  | .ref a =>
      match hget h a with
      | some (.dict fs) =>
          match fdget fs keyField with
          | some v => rk.any (fun k2 => hvalEq F h v k2)
          | none => false
      | _ => false
  | _ => false

/-- The Python list comprehension over a section value: a list filters
its elements, a `str` iterates into one-character strings and a dict
into its keys (both become lists!), a non-iterable raises. -/
def filterCompH (h : Heap) (keep : HVal → Bool) : HVal → Option (List HVal)
  | .ref a =>
      match hget h a with
      | some (.list xs) => some (xs.filter keep)
      | some (.dict fs) => some ((fs.map (fun p => HVal.str p.1)).filter keep)
      | none => none
  | .str s => some ((s.toList.map (fun c => HVal.str (String.mk [c]))).filter keep)
  | _ => none

/-- One section of the REMOVE phase on the heap: the comprehension
builds a new list object, which is assigned to the section field. -/
def removeSectionH (F : Nat) (h : Heap) (snap : Nat) (remBlk : HVal)
    (sect keyField : String) : Option Heap :=
  match blockGet h remBlk sect with
  | none => none
  | some r =>
      match r with
      | none => some h
      | some v =>
          if !pyTruthyH h v then some h
          else
            match v with
            | .ref ra =>
                match hget h ra with
                | some (.list removals) =>
                    match hget h snap with
                    | some (.dict fs) =>
                        match fdget fs sect with
                        | none => some h
                        | some sv =>
                            let rk := removeKeyValsH h keyField removals
                            if rk.isEmpty then some h
                            else
                              match filterCompH h
                                  (fun e => !removedEntryH F h keyField rk e) sv with
                              | some newList =>
                                  let p := halloc h (.list newList)
                                  dWrite p.1 snap sect (.ref p.2)
                              | none => none
                    | _ => none
                | _ => some h
            | _ => some h

/-- The REMOVE phase over all sections. -/
def removePhaseH (F : Nat) (snap : Nat) (remBlk : HVal) (h : Heap) :
    Option Heap :=
  SECTION_KEYS.foldlM (fun hh p => removeSectionH F hh snap remBlk p.1 p.2) h

/-- Whether a value is a dict entry with `status == "resolved"` (through
the heap). -/
def isResolvedEntryH (F : Nat) (h : Heap) (e : HVal) : Bool :=
  match e with
  | .ref a =>
      match hget h a with
      | some (.dict fs) =>
          match fdget fs "status" with
          | some v => hvalEq F h v (.str "resolved")
          | none => false
      | _ => false
  | _ => false

/-- The auto-purge of resolved issues: rebuild `snapshot["issues"]` as a
fresh list without the resolved entries. -/
def purgePhaseH (F : Nat) (h : Heap) (snap : Nat) : Option Heap :=
  match hget h snap with
  | some (.dict fs) =>
      match fdget fs "issues" with
      | none => some h
      | some sv =>
          match filterCompH h (fun e => !isResolvedEntryH F h e) sv with
          | some newList =>
              let p := halloc h (.list newList)
              dWrite p.1 snap "issues" (.ref p.2)
          | none => none
  | _ => none

/-! ### `_merge_delta` on the heap -/

/-- `_merge_delta` at the heap level.  `F` is the recursion budget for
readback-based `==` and for the deep copy.  The old snapshot is
deep-copied when truthy (`snapshot = copy.deepcopy(old_snapshot) if
old_snapshot else \x7b\x7d`); every later mutation targets the copy,
objects reachable from it or from the delta, or fresh allocations.
Returns the final heap and the address of the returned snapshot dict. -/
def mergeDeltaH (F : Nat) (h0 : Heap) (oldRoot deltaRoot : HVal)
    (roundNum : Int) (now : String) : Option (Heap × Nat) :=
  match (if pyTruthyH h0 oldRoot then deepCopyV F h0 oldRoot
         else (let p := halloc h0 (.dict []); some (p.1, .ref p.2))) with
  | none => none
  | some (h1, snapV) =>
      match snapV with
      | .ref snap =>
          match stampMetaHeap h1 snap roundNum now with
          | none => none
          | some h2 =>
              match blockGet h2 deltaRoot "no_changes" with
              | none => none
              | some ncOpt =>
                  if (match ncOpt with
                      | some v => pyTruthyH h2 v
                      | none => false) then
                    some (h2, snap)
                  else
                    match getBlockH h2 deltaRoot "add" with
                    | none => none
                    | some (h3, addBlk) =>
                    match addPhaseH F snap addBlk h3 with
                    | none => none
                    | some h4 =>
                    match getBlockH h4 deltaRoot "update" with
                    | none => none
                    | some (h5, updBlk) =>
                    match updatePhaseH F snap updBlk h5 with
                    | none => none
                    | some h6 =>
                    match envPhaseH h6 snap updBlk with
                    | none => none
                    | some h7 =>
                    match getBlockH h7 deltaRoot "remove" with
                    | none => none
                    | some (h8, remBlk) =>
                    match removePhaseH F snap remBlk h8 with
                    | none => none
                    | some h9 =>
                    match purgePhaseH F h9 snap with
                    | none => none
                    | some h10 => some (h10, snap)
      | _ => none

/-! ### The protected region and the merge-body invariant

`S` is the address set of the old snapshot's object graph.  The merge
never writes into `S`: it writes to the deep copy, to objects reachable
from the copy or from the delta, and to fresh allocations — all outside
`S` as long as no object outside `S` points into it. -/

/-- The value does not point into the protected region. -/
def avoidsV (S : Nat → Prop) : HVal → Prop
  | .ref a => ¬ S a
  | _ => True

/-- The object does not point into the protected region. -/
def avoidsO (S : Nat → Prop) : HObj → Prop
  | .list xs => ∀ v ∈ xs, avoidsV S v
  | .dict fs => ∀ p ∈ fs, avoidsV S p.2

/-- The value points only into the protected region. -/
def inRegionV (S : Nat → Prop) : HVal → Prop
  | .ref a => S a
  | _ => True

/-- The object points only into the protected region. -/
def inRegionO (S : Nat → Prop) : HObj → Prop
  | .list xs => ∀ v ∈ xs, inRegionV S v
  | .dict fs => ∀ p ∈ fs, inRegionV S p.2

/-- The merge-body invariant: the heap has only grown, every protected
address still holds its original object, and no object outside the
region points into it. -/
structure RegionInv (h0 : Heap) (S : Nat → Prop) (h : Heap) : Prop where
  le : h0.length ≤ h.length
  agree : ∀ a, S a → hget h a = hget h0 a
  sep : ∀ a, ¬ S a → ∀ o, hget h a = some o → avoidsO S o

theorem hget_hset_ne (h : Heap) (t a : Nat) (o : HObj) (hne : a ≠ t) :
    hget (hset h t o) a = hget h a := by
  simp only [hget, hset]
  rw [List.getElem?_set_ne (fun he => hne he.symm)]

theorem hget_hset_self (h : Heap) (t : Nat) (o : HObj) :
    hget (hset h t o) t = if t < h.length then some o else none := by
  simp only [hget, hset]
  split
  · rw [List.getElem?_set_self (by assumption)]
  · rw [List.getElem?_eq_none (by simp; omega)]

theorem hget_append_lt (h : Heap) (o : HObj) (a : Nat) (ha : a < h.length) :
    hget (h ++ [o]) a = hget h a := by
  simp only [hget]
  rw [List.getElem?_append_left ha]

theorem hget_append_self (h : Heap) (o : HObj) :
    hget (h ++ [o]) h.length = some o := by
  simp only [hget]
  rw [List.getElem?_concat_length]

theorem hget_lt_of_some (h : Heap) (a : Nat) (o : HObj)
    (hg : hget h a = some o) : a < h.length := by
  simp only [hget] at hg
  obtain ⟨hlt, _⟩ := List.getElem?_eq_some_iff.mp hg
  exact hlt

theorem hget_append_cases (h : Heap) (o : HObj) (a : Nat) (o' : HObj)
    (hg : hget (h ++ [o]) a = some o') :
    (a < h.length ∧ hget h a = some o') ∨ (a = h.length ∧ o' = o) := by
  by_cases hlt : a < h.length
  · rw [hget_append_lt h o a hlt] at hg
    exact Or.inl ⟨hlt, hg⟩
  · have hlen : a < h.length + 1 := by
      have := hget_lt_of_some _ _ _ hg
      simpa using this
    have he : a = h.length := by omega
    subst he
    rw [hget_append_self] at hg
    exact Or.inr ⟨rfl, (Option.some.injEq _ _ ▸ hg).symm⟩

/-- A write outside the region, storing an object that does not point
into it, preserves the invariant. -/
theorem RegionInv.write {h0 : Heap} {S : Nat → Prop} {h : Heap}
    (inv : RegionInv h0 S h) (t : Nat) (o : HObj)
    (ht : ¬ S t) (ho : avoidsO S o) : RegionInv h0 S (hset h t o) := by
  refine ⟨?_, ?_, ?_⟩
  · simpa [hset] using inv.le
  · intro a ha
    rw [hget_hset_ne h t a o (fun he => ht (he ▸ ha))]
    exact inv.agree a ha
  · intro a hna o' hgo
    by_cases he : a = t
    · subst he
      rw [hget_hset_self] at hgo
      split at hgo
      · cases hgo
        exact ho
      · cases hgo
    · rw [hget_hset_ne h t a o he] at hgo
      exact inv.sep a hna o' hgo

/-- An allocation of an object that does not point into the region
preserves the invariant; the fresh address is outside the region. -/
theorem RegionInv.alloc {h0 : Heap} {S : Nat → Prop} {h : Heap}
    (hb : ∀ a, S a → a < h0.length)
    (inv : RegionInv h0 S h) (o : HObj) (ho : avoidsO S o) :
    RegionInv h0 S (h ++ [o]) ∧ ¬ S h.length ∧
      hget (h ++ [o]) h.length = some o := by
  have hns : ¬ S h.length := fun hs => by
    have := hb _ hs
    have := inv.le
    omega
  refine ⟨⟨?_, ?_, ?_⟩, hns, hget_append_self h o⟩
  · have := inv.le
    simp only [List.length_append, List.length_cons, List.length_nil]
    omega
  · intro a ha
    have hlt : a < h.length := lt_of_lt_of_le (hb a ha) inv.le
    rw [hget_append_lt h o a hlt]
    exact inv.agree a ha
  · intro a hna o' hgo
    rcases hget_append_cases h o a o' hgo with ⟨_, hg⟩ | ⟨_, rfl⟩
    · exact inv.sep a hna o' hg
    · exact ho

/-- Field lookup in a non-region dict object yields a non-region
value. -/
theorem avoidsV_of_fdget {S : Nat → Prop} {fs : List (String × HVal)}
    {k : String} {v : HVal}
    (ho : avoidsO S (.dict fs)) (hf : fdget fs k = some v) : avoidsV S v := by
  unfold fdget at hf
  split at hf
  next p hp =>
    cases hf
    exact ho p (List.mem_of_find?_eq_some hp)
  next => cases hf

/-- Setting a field to a non-region value keeps the object out of the
region. -/
theorem avoidsO_fdset {S : Nat → Prop} {fs : List (String × HVal)}
    {k : String} {v : HVal}
    (ho : avoidsO S (.dict fs)) (hv : avoidsV S v) :
    avoidsO S (.dict (fdset fs k v)) := by
  intro p hp
  unfold fdset at hp
  split at hp
  · obtain ⟨q, hq, he⟩ := List.mem_map.mp hp
    by_cases hqk : q.1 == k
    · rw [if_pos hqk] at he
      rw [← he]
      exact hv
    · rw [if_neg hqk] at he
      rw [← he]
      exact ho q hq
  · rcases List.mem_append.mp hp with hq | hq
    · exact ho p hq
    · simp only [List.mem_singleton] at hq
      rw [hq]
      exact hv

/-- `d.update(other)` with non-region values keeps the object out of the
region. -/
theorem avoidsO_foverlay {S : Nat → Prop} :
    ∀ (upd fs : List (String × HVal)),
    avoidsO S (.dict fs) → (∀ p ∈ upd, avoidsV S p.2) →
    avoidsO S (.dict (foverlay fs upd))
  | [], fs, ho, _ => ho
  | (k, v) :: rest, fs, ho, hup => by
      have hv : avoidsV S v := hup (k, v) (List.mem_cons_self _ _)
      exact avoidsO_foverlay rest (fdset fs k v)
        (avoidsO_fdset ho hv)
        (fun p hp => hup p (List.mem_cons_of_mem _ hp))

/-- `dWrite` outside the region with a non-region value preserves the
invariant. -/
theorem dWrite_inv {h0 : Heap} {S : Nat → Prop} {h : Heap}
    (inv : RegionInv h0 S h) {t : Nat} {k : String} {v : HVal} {h' : Heap}
    (ht : ¬ S t) (hv : avoidsV S v) (hw : dWrite h t k v = some h') :
    RegionInv h0 S h' := by
  unfold dWrite at hw
  split at hw
  next fs hg =>
    cases hw
    exact inv.write t _ ht (avoidsO_fdset (inv.sep t ht _ hg) hv)
  next => cases hw

/-- `lAppend` outside the region with a non-region value preserves the
invariant. -/
theorem lAppend_inv {h0 : Heap} {S : Nat → Prop} {h : Heap}
    (inv : RegionInv h0 S h) {t : Nat} {v : HVal} {h' : Heap}
    (ht : ¬ S t) (hv : avoidsV S v) (hw : lAppend h t v = some h') :
    RegionInv h0 S h' := by
  unfold lAppend at hw
  split at hw
  next xs hg =>
    cases hw
    refine inv.write t _ ht ?_
    intro x hx
    rcases List.mem_append.mp hx with hx | hx
    · exact inv.sep t ht _ hg x hx
    · simp only [List.mem_singleton] at hx
      rw [hx]
      exact hv
  next => cases hw

/-- `ensureFieldH` (targeting a non-region dict, allocating a fresh
object that does not point into the region) preserves the invariant. -/
theorem ensureFieldH_inv {h0 : Heap} {S : Nat → Prop} {h : Heap}
    (hb : ∀ a, S a → a < h0.length)
    (inv : RegionInv h0 S h) {snap : Nat} {key : String} {o : HObj} {h' : Heap}
    (hs : ¬ S snap) (ho : avoidsO S o)
    (hw : ensureFieldH h snap key o = some h') : RegionInv h0 S h' := by
  unfold ensureFieldH at hw
  split at hw
  next fs hg =>
    split at hw
    · cases hw
      exact inv
    · cases hw
      obtain ⟨inv1, hfresh, _⟩ := inv.alloc hb o ho
      exact inv1.write snap _ hs
        (avoidsO_fdset (inv.sep snap hs _ hg)
          (show avoidsV S (.ref h.length) from hfresh))
  next => cases hw

theorem avoidsO_dict_nil {S : Nat → Prop} : avoidsO S (.dict []) :=
  fun p hp => absurd hp (List.not_mem_nil p)

theorem avoidsO_list_nil {S : Nat → Prop} : avoidsO S (.list []) :=
  fun v hv => absurd hv (List.not_mem_nil v)

/-- A `.get` through a non-region block yields a non-region value. -/
theorem blockGet_avoids {h0 : Heap} {S : Nat → Prop} {h : Heap}
    (inv : RegionInv h0 S h) {blk : HVal} {k : String} {v : HVal}
    (hblk : avoidsV S blk) (hg : blockGet h blk k = some (some v)) :
    avoidsV S v := by
  unfold blockGet at hg
  split at hg
  next a =>
    split at hg
    next fs hga =>
      injection hg with hg2
      exact avoidsV_of_fdget (inv.sep a hblk _ hga) hg2
    next => cases hg
  next => cases hg

/-- `getBlockH` preserves the invariant and yields a non-region block. -/
theorem getBlockH_inv {h0 : Heap} {S : Nat → Prop} {h : Heap}
    (hb : ∀ a, S a → a < h0.length)
    (inv : RegionInv h0 S h) {delta : HVal} {name : String}
    {h' : Heap} {blk : HVal}
    (hd : avoidsV S delta) (hg : getBlockH h delta name = some (h', blk)) :
    RegionInv h0 S h' ∧ avoidsV S blk := by
  unfold getBlockH at hg
  split at hg
  next => cases hg
  next r hr =>
    split at hg
    next v =>
      split at hg
      · cases hg
        exact ⟨inv, blockGet_avoids inv hd hr⟩
      · simp only [halloc] at hg
        cases hg
        obtain ⟨inv1, hfresh, _⟩ := inv.alloc hb (.dict []) avoidsO_dict_nil
        exact ⟨inv1, hfresh⟩
    next =>
      simp only [halloc] at hg
      cases hg
      obtain ⟨inv1, hfresh, _⟩ := inv.alloc hb (.dict []) avoidsO_dict_nil
      exact ⟨inv1, hfresh⟩

/-- The meta stamp preserves the invariant. -/
theorem stampMetaHeap_inv {h0 : Heap} {S : Nat → Prop} {h : Heap}
    (hb : ∀ a, S a → a < h0.length)
    (inv : RegionInv h0 S h) {snap : Nat} {roundNum : Int} {now : String}
    {h' : Heap} (hs : ¬ S snap)
    (hw : stampMetaHeap h snap roundNum now = some h') :
    RegionInv h0 S h' := by
  unfold stampMetaHeap at hw
  split at hw
  next fs hg =>
    split at hw
    · -- meta missing: fresh meta dict, then the two field writes
      simp only [halloc] at hw
      obtain ⟨inv1, hfresh, _⟩ := inv.alloc hb (.dict []) avoidsO_dict_nil
      have inv2 : RegionInv h0 S
          (hset (h ++ [HObj.dict []]) snap
            (.dict (fdset fs "meta" (.ref h.length)))) :=
        inv1.write snap _ hs
          (avoidsO_fdset (inv.sep snap hs _ hg)
            (show avoidsV S (.ref h.length) from hfresh))
      split at hw
      next h2 hw2 =>
        exact dWrite_inv
          (dWrite_inv inv2 hfresh (show avoidsV S (.int roundNum) from trivial) hw2)
          hfresh (show avoidsV S (.str now) from trivial) hw
      next => cases hw
    next m hm =>
      -- existing meta reference
      have hmS : ¬ S m := avoidsV_of_fdget (inv.sep snap hs _ hg) hm
      split at hw
      next h1 hw1 =>
        exact dWrite_inv
          (dWrite_inv inv hmS (show avoidsV S (.int roundNum) from trivial) hw1)
          hmS (show avoidsV S (.str now) from trivial) hw
      next => cases hw
    next => cases hw
  next => cases hw

/-- The deep copy preserves the invariant and produces a value outside
the region (all its containers are fresh allocations). -/
theorem deepCopy_inv {h0 : Heap} {S : Nat → Prop}
    (hb : ∀ a, S a → a < h0.length) :
    ∀ fuel : Nat,
      (∀ h v h' v', RegionInv h0 S h → deepCopyV fuel h v = some (h', v') →
        RegionInv h0 S h' ∧ avoidsV S v') ∧
      (∀ h xs h' ys, RegionInv h0 S h → deepCopyL fuel h xs = some (h', ys) →
        RegionInv h0 S h' ∧ ∀ y ∈ ys, avoidsV S y) ∧
      (∀ h fs h' gs, RegionInv h0 S h → deepCopyF fuel h fs = some (h', gs) →
        RegionInv h0 S h' ∧ ∀ p ∈ gs, avoidsV S p.2) := by
  intro fuel
  induction fuel with
  | zero =>
      refine ⟨?_, ?_, ?_⟩ <;> intro h x h' y inv hc <;>
        simp [deepCopyV, deepCopyL, deepCopyF] at hc
  | succ n ih =>
      obtain ⟨ihV, ihL, ihF⟩ := ih
      refine ⟨?_, ?_, ?_⟩
      · intro h v h' v' inv hc
        cases v with
        | str s =>
            simp only [deepCopyV, Option.some.injEq, Prod.mk.injEq] at hc
            obtain ⟨rfl, rfl⟩ := hc
            exact ⟨inv, trivial⟩
        | int n2 =>
            simp only [deepCopyV, Option.some.injEq, Prod.mk.injEq] at hc
            obtain ⟨rfl, rfl⟩ := hc
            exact ⟨inv, trivial⟩
        | bool b =>
            simp only [deepCopyV, Option.some.injEq, Prod.mk.injEq] at hc
            obtain ⟨rfl, rfl⟩ := hc
            exact ⟨inv, trivial⟩
        | null =>
            simp only [deepCopyV, Option.some.injEq, Prod.mk.injEq] at hc
            obtain ⟨rfl, rfl⟩ := hc
            exact ⟨inv, trivial⟩
        | ref a =>
            simp only [deepCopyV] at hc
            split at hc
            next xs hg =>
              split at hc
              next h1 ys hcl =>
                obtain ⟨inv1, hys⟩ := ihL h xs h1 ys inv hcl
                obtain ⟨inv2, hfresh, _⟩ := inv1.alloc hb (.list ys) hys
                simp only [halloc, Option.some.injEq, Prod.mk.injEq] at hc
                obtain ⟨rfl, rfl⟩ := hc
                exact ⟨inv2, hfresh⟩
              next => cases hc
            next fs hg =>
              split at hc
              next h1 gs hcf =>
                obtain ⟨inv1, hgs⟩ := ihF h fs h1 gs inv hcf
                obtain ⟨inv2, hfresh, _⟩ := inv1.alloc hb (.dict gs) hgs
                simp only [halloc, Option.some.injEq, Prod.mk.injEq] at hc
                obtain ⟨rfl, rfl⟩ := hc
                exact ⟨inv2, hfresh⟩
              next => cases hc
            next => cases hc
      · intro h xs h' ys inv hc
        cases xs with
        | nil =>
            simp only [deepCopyL, Option.some.injEq, Prod.mk.injEq] at hc
            obtain ⟨rfl, rfl⟩ := hc
            exact ⟨inv, fun y hy => absurd hy (List.not_mem_nil y)⟩
        | cons x rest =>
            simp only [deepCopyL] at hc
            split at hc
            next h1 y hcv =>
              split at hc
              next h2 ys2 hcl =>
                obtain ⟨inv1, hy⟩ := ihV h x h1 y inv hcv
                obtain ⟨inv2, hys⟩ := ihL h1 rest h2 ys2 inv1 hcl
                simp only [Option.some.injEq, Prod.mk.injEq] at hc
                obtain ⟨rfl, rfl⟩ := hc
                refine ⟨inv2, ?_⟩
                intro z hz
                rcases List.mem_cons.mp hz with rfl | hz
                · exact hy
                · exact hys z hz
              next => cases hc
            next => cases hc
      · intro h fs h' gs inv hc
        cases fs with
        | nil =>
            simp only [deepCopyF, Option.some.injEq, Prod.mk.injEq] at hc
            obtain ⟨rfl, rfl⟩ := hc
            exact ⟨inv, fun p hp => absurd hp (List.not_mem_nil p)⟩
        | cons kv rest =>
            obtain ⟨k, v⟩ := kv
            simp only [deepCopyF] at hc
            split at hc
            next h1 y hcv =>
              split at hc
              next h2 ys2 hcf =>
                obtain ⟨inv1, hy⟩ := ihV h v h1 y inv hcv
                obtain ⟨inv2, hys⟩ := ihF h1 rest h2 ys2 inv1 hcf
                simp only [Option.some.injEq, Prod.mk.injEq] at hc
                obtain ⟨rfl, rfl⟩ := hc
                refine ⟨inv2, ?_⟩
                intro p hp
                rcases List.mem_cons.mp hp with rfl | hp
                · exact hy
                · exact hys p hp
              next => cases hc
            next => cases hc

/-- Generic invariant preservation through a `foldlM` over `Option`. -/
theorem foldlM_inv {α : Type} {P : Heap → Prop} {f : Heap → α → Option Heap}
    (hf : ∀ h x h', P h → f h x = some h' → P h') :
    ∀ (l : List α) (h h' : Heap), P h → List.foldlM f h l = some h' → P h'
  | [], h, h', hp, hw => by
      simp only [List.foldlM_nil] at hw
      injection hw with hw
      exact hw ▸ hp
  | x :: xs, h, h', hp, hw => by
      rw [List.foldlM_cons] at hw
      cases hfx : f h x with
      | none => rw [hfx] at hw; cases hw
      | some h1 =>
          rw [hfx] at hw
          simp only [Option.bind_eq_bind, Option.some_bind] at hw
          exact foldlM_inv hf xs h1 h' (hf h x h1 hp hfx) hw

/-- The append loop of the ADD phase preserves the invariant (the list
it appends to and the entries it appends are outside the region). -/
theorem addEntriesH_inv {h0 : Heap} {S : Nat → Prop} {F : Nat}
    {la : Nat} {keyField : String} (hla : ¬ S la) :
    ∀ (es : List HVal) (h : Heap) (existing : List HVal) (h' : Heap),
      RegionInv h0 S h → (∀ e ∈ es, avoidsV S e) →
      addEntriesH F h la keyField existing es = some h' →
      RegionInv h0 S h'
  | [], h, existing, h', inv, _, hw => by
      simp only [addEntriesH, Option.some.injEq] at hw
      exact hw ▸ inv
  | e :: rest, h, existing, h', inv, hes, hw => by
      simp only [addEntriesH] at hw
      split at hw
      · exact addEntriesH_inv hla rest h existing h' inv
          (fun x hx => hes x (List.mem_cons_of_mem _ hx)) hw
      next key hk =>
        split at hw
        · exact addEntriesH_inv hla rest h existing h' inv
            (fun x hx => hes x (List.mem_cons_of_mem _ hx)) hw
        · split at hw
          next h1 hap =>
            exact addEntriesH_inv hla rest h1 (key :: existing) h'
              (lAppend_inv inv hla (hes e (List.mem_cons_self _ _)) hap)
              (fun x hx => hes x (List.mem_cons_of_mem _ hx)) hw
          next => cases hw

/-- The body of one ADD section preserves the invariant. -/
theorem addSectionGoH_inv {h0 : Heap} {S : Nat → Prop} {F : Nat} {h : Heap}
    (hb : ∀ a, S a → a < h0.length)
    (inv : RegionInv h0 S h) {snap : Nat} {sect keyField : String}
    {newEntries : List HVal} {h' : Heap}
    (hs : ¬ S snap) (hne : ∀ e ∈ newEntries, avoidsV S e)
    (hw : addSectionGoH F h snap sect keyField newEntries = some h') :
    RegionInv h0 S h' := by
  unfold addSectionGoH at hw
  split at hw
  next => cases hw
  next h1 hef =>
    have inv1 : RegionInv h0 S h1 := ensureFieldH_inv hb inv hs avoidsO_list_nil hef
    split at hw
    next fs hg =>
      split at hw
      next la hla2 =>
        have hlaS : ¬ S la :=
          avoidsV_of_fdget (inv1.sep snap hs _ hg) hla2
        split at hw
        next xs hgl =>
          exact addEntriesH_inv hlaS newEntries h1 _ h' inv1 hne hw
        next =>
          split at hw
          · cases hw
          · injection hw with hw
            exact hw ▸ inv1
        next => cases hw
      next =>
        split at hw
        · cases hw
        · injection hw with hw
          exact hw ▸ inv1
      next => cases hw
      next => cases hw
    next => cases hw

/-- One ADD section preserves the invariant. -/
theorem addSectionH_inv {h0 : Heap} {S : Nat → Prop} {F : Nat} {h : Heap}
    (hb : ∀ a, S a → a < h0.length)
    (inv : RegionInv h0 S h) {snap : Nat} {addBlk : HVal}
    {sect keyField : String} {h' : Heap}
    (hs : ¬ S snap) (hblk : avoidsV S addBlk)
    (hw : addSectionH F h snap addBlk sect keyField = some h') :
    RegionInv h0 S h' := by
  unfold addSectionH at hw
  split at hw
  next => cases hw
  next r hr =>
    split at hw
    next =>
      injection hw with hw
      exact hw ▸ inv
    next v =>
      split at hw
      · injection hw with hw
        exact hw ▸ inv
      · split at hw
        next na hpt =>
          have hna : ¬ S na := blockGet_avoids inv hblk hr
          split at hw
          next newEntries hgn =>
            exact addSectionGoH_inv hb inv hs (inv.sep na hna _ hgn) hw
          next =>
            injection hw with hw
            exact hw ▸ inv
        next =>
          injection hw with hw
          exact hw ▸ inv

/-- The ADD phase preserves the invariant. -/
theorem addPhaseH_inv {h0 : Heap} {S : Nat → Prop} {F : Nat} {h : Heap}
    (hb : ∀ a, S a → a < h0.length)
    (inv : RegionInv h0 S h) {snap : Nat} {addBlk : HVal} {h' : Heap}
    (hs : ¬ S snap) (hblk : avoidsV S addBlk)
    (hw : addPhaseH F snap addBlk h = some h') : RegionInv h0 S h' :=
  foldlM_inv (fun hh _ hh' invh hwp => addSectionH_inv hb invh hs hblk hwp)
    SECTION_KEYS h h' inv hw

/-- `overlayH` on a non-region entry with non-region patch values
preserves the invariant. -/
theorem overlayH_inv {h0 : Heap} {S : Nat → Prop} {ea : Nat} (hea : ¬ S ea) :
    ∀ (ps : List (String × HVal)) (h h' : Heap),
      RegionInv h0 S h → (∀ p ∈ ps, avoidsV S p.2) →
      overlayH h ea ps = some h' → RegionInv h0 S h'
  | [], h, h', inv, _, hw => by
      simp only [overlayH, Option.some.injEq] at hw
      exact hw ▸ inv
  | (k, v) :: rest, h, h', inv, hps, hw => by
      simp only [overlayH] at hw
      split at hw
      next h1 hw1 =>
        exact overlayH_inv hea rest h1 h'
          (dWrite_inv inv hea (hps (k, v) (List.mem_cons_self _ _)) hw1)
          (fun p hp => hps p (List.mem_cons_of_mem _ hp)) hw
      next => cases hw

/-- The entry found by the update matching lies outside the region. -/
theorem findEntryH_notS {h0 : Heap} {S : Nat → Prop} {F : Nat} {h : Heap}
    (inv : RegionInv h0 S h) {keyField : String} {matchVal : HVal} :
    ∀ (xs : List HVal) (ea : Nat), (∀ e ∈ xs, avoidsV S e) →
      findEntryH F h keyField matchVal xs = some ea → ¬ S ea
  | [], ea, _, hw => by simp [findEntryH] at hw
  | e :: rest, ea, hxs, hw => by
      have hrest : ∀ x ∈ rest, avoidsV S x :=
        fun x hx => hxs x (List.mem_cons_of_mem _ hx)
      simp only [findEntryH] at hw
      split at hw
      next a =>
        split at hw
        next fs hg =>
          split at hw
          · injection hw with hw
            have ha : ¬ S a := hxs _ (List.mem_cons_self _ _)
            exact hw ▸ ha
          · exact findEntryH_notS inv rest ea hrest hw
        next => exact findEntryH_notS inv rest ea hrest hw
      next => exact findEntryH_notS inv rest ea hrest hw

/-- The patch fold of one UPDATE section preserves the invariant. -/
theorem applyPatchesH_inv {h0 : Heap} {S : Nat → Prop} {F : Nat}
    {snap : Nat} {sect keyField : String} (hs : ¬ S snap) :
    ∀ (ps : List HVal) (h h' : Heap), RegionInv h0 S h →
      (∀ p ∈ ps, avoidsV S p) →
      applyPatchesH F snap sect keyField h ps = some h' → RegionInv h0 S h'
  | [], h, h', inv, _, hw => by
      simp only [applyPatchesH, Option.some.injEq] at hw
      exact hw ▸ inv
  | p :: rest, h, h', inv, hps, hw => by
      have hrest : ∀ x ∈ rest, avoidsV S x :=
        fun x hx => hps x (List.mem_cons_of_mem _ hx)
      simp only [applyPatchesH] at hw
      split at hw
      next pa =>
        have hpa : ¬ S pa := hps _ (List.mem_cons_self _ _)
        split at hw
        next patch hgp =>
          have hpatch : ∀ q ∈ patch, avoidsV S q.2 := inv.sep pa hpa _ hgp
          split at hw
          · exact applyPatchesH_inv hs rest h h' inv hrest hw
          · exact applyPatchesH_inv hs rest h h' inv hrest hw
          next matchVal hmv =>
            split at hw
            next fs hg =>
              split at hw
              next la hfla =>
                have hla : ¬ S la :=
                  avoidsV_of_fdget (inv.sep snap hs _ hg) hfla
                split at hw
                next xs hgl =>
                  have hxs : ∀ e ∈ xs, avoidsV S e := inv.sep la hla _ hgl
                  split at hw
                  next ea hfe =>
                    have hea : ¬ S ea := findEntryH_notS inv xs ea hxs hfe
                    split at hw
                    next h1 hov =>
                      exact applyPatchesH_inv hs rest h1 h'
                        (overlayH_inv hea patch h h1 inv hpatch hov) hrest hw
                    next => cases hw
                  next => exact applyPatchesH_inv hs rest h h' inv hrest hw
                next => exact applyPatchesH_inv hs rest h h' inv hrest hw
                next => cases hw
              next => exact applyPatchesH_inv hs rest h h' inv hrest hw
              next => cases hw
              next => cases hw
            next => cases hw
        next => exact applyPatchesH_inv hs rest h h' inv hrest hw
      next => exact applyPatchesH_inv hs rest h h' inv hrest hw

/-- One UPDATE section preserves the invariant. -/
theorem updateSectionH_inv {h0 : Heap} {S : Nat → Prop} {F : Nat} {h : Heap}
    (inv : RegionInv h0 S h) {snap : Nat} {updBlk : HVal}
    {sect keyField : String} {h' : Heap}
    (hs : ¬ S snap) (hblk : avoidsV S updBlk)
    (hw : updateSectionH F h snap updBlk sect keyField = some h') :
    RegionInv h0 S h' := by
  unfold updateSectionH at hw
  split at hw
  next => cases hw
  next r hr =>
    split at hw
    next =>
      injection hw with hw
      exact hw ▸ inv
    next v =>
      split at hw
      · injection hw with hw
        exact hw ▸ inv
      · split at hw
        next ua hpt =>
          have hua : ¬ S ua := blockGet_avoids inv hblk hr
          split at hw
          next patches hgu =>
            have hp : ∀ q ∈ patches, avoidsV S q := inv.sep ua hua _ hgu
            split at hw
            next fs hg =>
              split at hw
              · exact applyPatchesH_inv hs patches h h' inv hp hw
              · injection hw with hw
                exact hw ▸ inv
            next => cases hw
          next =>
            injection hw with hw
            exact hw ▸ inv
        next =>
          injection hw with hw
          exact hw ▸ inv

/-- The UPDATE phase preserves the invariant. -/
theorem updatePhaseH_inv {h0 : Heap} {S : Nat → Prop} {F : Nat} {h : Heap}
    (inv : RegionInv h0 S h) {snap : Nat} {updBlk : HVal} {h' : Heap}
    (hs : ¬ S snap) (hblk : avoidsV S updBlk)
    (hw : updatePhaseH F snap updBlk h = some h') : RegionInv h0 S h' :=
  foldlM_inv (fun hh _ hh' invh hwp => updateSectionH_inv invh hs hblk hwp)
    SECTION_KEYS h h' inv hw

/-- The environment merge preserves the invariant. -/
theorem envPhaseH_inv {h0 : Heap} {S : Nat → Prop} {h : Heap}
    (hb : ∀ a, S a → a < h0.length)
    (inv : RegionInv h0 S h) {snap : Nat} {updBlk : HVal} {h' : Heap}
    (hs : ¬ S snap) (hblk : avoidsV S updBlk)
    (hw : envPhaseH h snap updBlk = some h') : RegionInv h0 S h' := by
  unfold envPhaseH at hw
  split at hw
  next => cases hw
  next r hr =>
    split at hw
    next =>
      injection hw with hw
      exact hw ▸ inv
    next v =>
      split at hw
      · injection hw with hw
        exact hw ▸ inv
      · split at hw
        next ea hpt =>
          have hea : ¬ S ea := blockGet_avoids inv hblk hr
          split at hw
          next envUpd hge =>
            have hup : ∀ q ∈ envUpd, avoidsV S q.2 := inv.sep ea hea _ hge
            split at hw
            next => cases hw
            next h1 hef =>
              have inv1 : RegionInv h0 S h1 :=
                ensureFieldH_inv hb inv hs avoidsO_dict_nil hef
              split at hw
              next fs1 hg1 =>
                split at hw
                next ca hca =>
                  have hcaS : ¬ S ca :=
                    avoidsV_of_fdget (inv1.sep snap hs _ hg1) hca
                  split at hw
                  next cur hgc =>
                    injection hw with hw
                    exact hw ▸ inv1.write ca _ hcaS
                      (avoidsO_foverlay envUpd cur (inv1.sep ca hcaS _ hgc) hup)
                  next => cases hw
                next => cases hw
                next => cases hw
              next => cases hw
          next =>
            injection hw with hw
            exact hw ▸ inv
        next =>
          injection hw with hw
          exact hw ▸ inv

/-- The rebuilt list of a comprehension over a non-region section value
has only non-region elements. -/
theorem filterCompH_avoids {h0 : Heap} {S : Nat → Prop} {h : Heap}
    (inv : RegionInv h0 S h) {keep : HVal → Bool} {sv : HVal}
    {newList : List HVal}
    (hsv : avoidsV S sv) (hw : filterCompH h keep sv = some newList) :
    ∀ v ∈ newList, avoidsV S v := by
  unfold filterCompH at hw
  split at hw
  next a =>
    split at hw
    next xs hg =>
      injection hw with hw
      intro v hv
      rw [← hw] at hv
      exact inv.sep a hsv _ hg v (List.mem_of_mem_filter hv)
    next fs hg =>
      injection hw with hw
      intro v hv
      rw [← hw] at hv
      obtain ⟨p, _, hpv⟩ := List.mem_map.mp (List.mem_of_mem_filter hv)
      rw [← hpv]
      trivial
    next => cases hw
  next s =>
    injection hw with hw
    intro v hv
    rw [← hw] at hv
    obtain ⟨c, _, hcv⟩ := List.mem_map.mp (List.mem_of_mem_filter hv)
    rw [← hcv]
    trivial
  next => cases hw

/-- One REMOVE section preserves the invariant. -/
theorem removeSectionH_inv {h0 : Heap} {S : Nat → Prop} {F : Nat} {h : Heap}
    (hb : ∀ a, S a → a < h0.length)
    (inv : RegionInv h0 S h) {snap : Nat} {remBlk : HVal}
    {sect keyField : String} {h' : Heap}
    (hs : ¬ S snap) (hblk : avoidsV S remBlk)
    (hw : removeSectionH F h snap remBlk sect keyField = some h') :
    RegionInv h0 S h' := by
  unfold removeSectionH at hw
  split at hw
  next => cases hw
  next r hr =>
    split at hw
    next =>
      injection hw with hw
      exact hw ▸ inv
    next v =>
      split at hw
      · injection hw with hw
        exact hw ▸ inv
      · split at hw
        next ra hpt =>
          split at hw
          next removals hgr =>
            split at hw
            next fs hg =>
              split at hw
              next =>
                injection hw with hw
                exact hw ▸ inv
              next sv hfsv =>
                have hsv : avoidsV S sv :=
                  avoidsV_of_fdget (inv.sep snap hs _ hg) hfsv
                dsimp only at hw
                split at hw
                · injection hw with hw
                  exact hw ▸ inv
                · split at hw
                  next newList hfc =>
                    have hnl : ∀ x ∈ newList, avoidsV S x :=
                      filterCompH_avoids inv hsv hfc
                    simp only [halloc] at hw
                    obtain ⟨inv1, hfresh, _⟩ := inv.alloc hb (.list newList) hnl
                    exact dWrite_inv inv1 hs
                      (show avoidsV S (.ref h.length) from hfresh) hw
                  next => cases hw
            next => cases hw
          next =>
            injection hw with hw
            exact hw ▸ inv
        next =>
          injection hw with hw
          exact hw ▸ inv

/-- The REMOVE phase preserves the invariant. -/
theorem removePhaseH_inv {h0 : Heap} {S : Nat → Prop} {F : Nat} {h : Heap}
    (hb : ∀ a, S a → a < h0.length)
    (inv : RegionInv h0 S h) {snap : Nat} {remBlk : HVal} {h' : Heap}
    (hs : ¬ S snap) (hblk : avoidsV S remBlk)
    (hw : removePhaseH F snap remBlk h = some h') : RegionInv h0 S h' :=
  foldlM_inv (fun hh _ hh' invh hwp => removeSectionH_inv hb invh hs hblk hwp)
    SECTION_KEYS h h' inv hw

/-- The resolved-issue purge preserves the invariant. -/
theorem purgePhaseH_inv {h0 : Heap} {S : Nat → Prop} {F : Nat} {h : Heap}
    (hb : ∀ a, S a → a < h0.length)
    (inv : RegionInv h0 S h) {snap : Nat} {h' : Heap}
    (hs : ¬ S snap) (hw : purgePhaseH F h snap = some h') :
    RegionInv h0 S h' := by
  unfold purgePhaseH at hw
  split at hw
  next fs hg =>
    split at hw
    next =>
      injection hw with hw
      exact hw ▸ inv
    next sv hfsv =>
      have hsv : avoidsV S sv :=
        avoidsV_of_fdget (inv.sep snap hs _ hg) hfsv
      split at hw
      next newList hfc =>
        have hnl : ∀ x ∈ newList, avoidsV S x :=
          filterCompH_avoids inv hsv hfc
        simp only [halloc] at hw
        obtain ⟨inv1, hfresh, _⟩ := inv.alloc hb (.list newList) hnl
        exact dWrite_inv inv1 hs
          (show avoidsV S (.ref h.length) from hfresh) hw
      next => cases hw
  next => cases hw

/-- Readback of a value whose graph lies inside the protected region is
the same in any heap that agrees with the original on the region. -/
theorem readVal_frame {h0 : Heap} {S : Nat → Prop} {h' : Heap}
    (hcl : ∀ a, S a → ∀ o, hget h0 a = some o → inRegionO S o)
    (hagree : ∀ a, S a → hget h' a = hget h0 a) :
    ∀ fuel : Nat,
      (∀ v, inRegionV S v → readVal fuel h' v = readVal fuel h0 v) ∧
      (∀ xs, (∀ x ∈ xs, inRegionV S x) →
        readList fuel h' xs = readList fuel h0 xs) ∧
      (∀ fs, (∀ p ∈ fs, inRegionV S p.2) →
        readFields fuel h' fs = readFields fuel h0 fs) := by
  intro fuel
  induction fuel with
  | zero => exact ⟨fun v _ => rfl, fun xs _ => rfl, fun fs _ => rfl⟩
  | succ n ih =>
      obtain ⟨ihV, ihL, ihF⟩ := ih
      refine ⟨?_, ?_, ?_⟩
      · intro v hv
        cases v with
        | str s => rfl
        | int m => rfl
        | bool b => rfl
        | null => rfl
        | ref a =>
            have ha : S a := hv
            simp only [readVal]
            rw [hagree a ha]
            cases hgo : hget h0 a with
            | none => rfl
            | some o =>
                cases o with
                | list xs =>
                    dsimp only
                    rw [ihL xs (hcl a ha _ hgo)]
                | dict fs =>
                    dsimp only
                    rw [ihF fs (hcl a ha _ hgo)]
      · intro xs hxs
        cases xs with
        | nil => rfl
        | cons x rest =>
            simp only [readList]
            rw [ihV x (hxs x (List.mem_cons_self _ _)),
              ihL rest (fun y hy => hxs y (List.mem_cons_of_mem _ hy))]
      · intro fs hfs
        cases fs with
        | nil => rfl
        | cons p rest =>
            obtain ⟨k, v⟩ := p
            simp only [readFields]
            rw [ihV v (hfs (k, v) (List.mem_cons_self _ _)),
              ihF rest (fun q hq => hfs q (List.mem_cons_of_mem _ hq))]

/-- C10 (amended): for every heap, every protected region `S` that
carves out the old snapshot's object graph (closed under references,
within the original heap, and with nothing outside it — in particular
the freshly parsed delta — pointing into it), a successful
`_merge_delta` returns a snapshot object outside that graph and leaves
the old snapshot's readback unchanged at every recursion depth: the
merge deep-copies the input and mutates only the copy, delta-reachable
objects and fresh allocations. -/
theorem mergeDelta_frame_preserves_old (F : Nat) (h0 : Heap) (S : Nat → Prop)
    (oldRoot deltaRoot : HVal) (roundNum : Int) (now : String)
    (h' : Heap) (res : Nat)
    (hb : ∀ a, S a → a < h0.length)
    (hsep0 : ∀ a, ¬ S a → ∀ o, hget h0 a = some o → avoidsO S o)
    (hclosed : ∀ a, S a → ∀ o, hget h0 a = some o → inRegionO S o)
    (hold : inRegionV S oldRoot)
    (hdelta : avoidsV S deltaRoot)
    (hmerge : mergeDeltaH F h0 oldRoot deltaRoot roundNum now = some (h', res)) :
    (∀ fuel, readVal fuel h' oldRoot = readVal fuel h0 oldRoot) ∧ ¬ S res := by
  have inv0 : RegionInv h0 S h0 := ⟨le_refl _, fun a _ => rfl, hsep0⟩
  unfold mergeDeltaH at hmerge
  split at hmerge
  next => cases hmerge
  next h1 snapV hcopy =>
    have hc1 : RegionInv h0 S h1 ∧ avoidsV S snapV := by
      split at hcopy
      · exact (deepCopy_inv hb F).1 h0 oldRoot h1 snapV inv0 hcopy
      · simp only [halloc, Option.some.injEq, Prod.mk.injEq] at hcopy
        obtain ⟨rfl, rfl⟩ := hcopy
        obtain ⟨inv1, hfresh, _⟩ := inv0.alloc hb (.dict []) avoidsO_dict_nil
        exact ⟨inv1, hfresh⟩
    obtain ⟨inv1, hsnapV⟩ := hc1
    split at hmerge
    next snap =>
      have hsnap : ¬ S snap := hsnapV
      split at hmerge
      next => cases hmerge
      next h2 hst =>
        have inv2 : RegionInv h0 S h2 := stampMetaHeap_inv hb inv1 hsnap hst
        split at hmerge
        next => cases hmerge
        next ncOpt hnc =>
          split at hmerge
          · simp only [Option.some.injEq, Prod.mk.injEq] at hmerge
            obtain ⟨rfl, rfl⟩ := hmerge
            exact ⟨fun fuel => (readVal_frame hclosed inv2.agree fuel).1 oldRoot hold,
              hsnap⟩
          · split at hmerge
            next => cases hmerge
            next h3 addBlk hgb1 =>
              obtain ⟨inv3, hab⟩ := getBlockH_inv hb inv2 hdelta hgb1
              split at hmerge
              next => cases hmerge
              next h4 hph1 =>
                have inv4 : RegionInv h0 S h4 := addPhaseH_inv hb inv3 hsnap hab hph1
                split at hmerge
                next => cases hmerge
                next h5 updBlk hgb2 =>
                  obtain ⟨inv5, hub⟩ := getBlockH_inv hb inv4 hdelta hgb2
                  split at hmerge
                  next => cases hmerge
                  next h6 hph2 =>
                    have inv6 : RegionInv h0 S h6 :=
                      updatePhaseH_inv inv5 hsnap hub hph2
                    split at hmerge
                    next => cases hmerge
                    next h7 hph3 =>
                      have inv7 : RegionInv h0 S h7 :=
                        envPhaseH_inv hb inv6 hsnap hub hph3
                      split at hmerge
                      next => cases hmerge
                      next h8 remBlk hgb3 =>
                        obtain ⟨inv8, hrb⟩ := getBlockH_inv hb inv7 hdelta hgb3
                        split at hmerge
                        next => cases hmerge
                        next h9 hph4 =>
                          have inv9 : RegionInv h0 S h9 :=
                            removePhaseH_inv hb inv8 hsnap hrb hph4
                          split at hmerge
                          next => cases hmerge
                          next h10 hph5 =>
                            have inv10 : RegionInv h0 S h10 :=
                              purgePhaseH_inv hb inv9 hsnap hph5
                            simp only [Option.some.injEq, Prod.mk.injEq] at hmerge
                            obtain ⟨rfl, rfl⟩ := hmerge
                            exact ⟨fun fuel =>
                              (readVal_frame hclosed inv10.agree fuel).1 oldRoot hold,
                              hsnap⟩
    next => cases hmerge

/-- A heap where the delta's object graph aliases the old snapshot's
(addresses 0-2): `old = \x7b"services": [], "keep": \x7b"name":
"web"\x7d\x7d`, and the delta adds that very `keep` object to
`services` and then updates the `services` entry named `web`. -/
def h0c : Heap :=
  [.dict [("services", .ref 1), ("keep", .ref 2)],
   .list [],
   .dict [("name", .str "web")],
   .dict [("add", .ref 4), ("update", .ref 6)],
   .dict [("services", .ref 5)],
   .list [.ref 2],
   .dict [("services", .ref 7)],
   .list [.ref 8],
   .dict [("name", .str "web"), ("status", .str "hacked")]]

/-- C10 counterexample: with a delta that aliases an object of the old
snapshot, the update phase mutates that shared object in place, and the
old snapshot's readback changes — its `keep` entry gains the patched
`status` field.  `copy.deepcopy` protects the old snapshot only against
writes reached through the copy, not against writes reached through the
delta. -/
theorem mergeDelta_can_mutate_aliased_old :
    (mergeDeltaH 30 h0c (.ref 0) (.ref 3) 5 "2026").map
        (fun pr => readVal 30 pr.1 (.ref 0)) =
      some (some (.dict [("services", .list []),
        ("keep", .dict [("name", .str "web"), ("status", .str "hacked")])])) ∧
    readVal 30 h0c (.ref 0) =
      some (.dict [("services", .list []),
        ("keep", .dict [("name", .str "web")])]) ∧
    Yaml.dict [("services", Yaml.list []),
        ("keep", Yaml.dict [("name", Yaml.str "web"), ("status", Yaml.str "hacked")])] ≠
      Yaml.dict [("services", Yaml.list []),
        ("keep", Yaml.dict [("name", Yaml.str "web")])] :=
  ⟨rfl, rfl, by simp⟩

/-- A heap for the witness: the old snapshot (addresses 0-2) holds one
resolved issue, and the disjoint delta (addresses 3-6) adds a `web`
service. -/
def h0w : Heap :=
  [.dict [("issues", .ref 1)],
   .list [.ref 2],
   .dict [("summary", .str "i1"), ("status", .str "resolved")],
   .dict [("add", .ref 4)],
   .dict [("services", .ref 5)],
   .list [.ref 6],
   .dict [("name", .str "web")]]

theorem h0w_sep : ∀ a, ¬ (a < 3) → ∀ o, hget h0w a = some o →
    avoidsO (fun x => x < 3) o := by
  intro a hna o hgo
  have hlt : a < 7 := hget_lt_of_some _ _ _ hgo
  rcases a with _ | _ | _ | _ | _ | _ | _ | n
  · exact absurd (show (0:Nat) < 3 by omega) hna
  · exact absurd (show (1:Nat) < 3 by omega) hna
  · exact absurd (show (2:Nat) < 3 by omega) hna
  · injection (hgo : some (HObj.dict [("add", HVal.ref 4)]) = some o) with he
    subst he
    intro p hp
    fin_cases hp
    exact show ¬ (4 < 3) by omega
  · injection (hgo : some (HObj.dict [("services", HVal.ref 5)]) = some o) with he
    subst he
    intro p hp
    fin_cases hp
    exact show ¬ (5 < 3) by omega
  · injection (hgo : some (HObj.list [HVal.ref 6]) = some o) with he
    subst he
    intro v hv
    fin_cases hv
    exact show ¬ (6 < 3) by omega
  · injection (hgo : some (HObj.dict [("name", HVal.str "web")]) = some o) with he
    subst he
    intro p hp
    fin_cases hp
    trivial
  · exact absurd hlt (by omega)

theorem h0w_closed : ∀ a, a < 3 → ∀ o, hget h0w a = some o →
    inRegionO (fun x => x < 3) o := by
  intro a ha o hgo
  rcases a with _ | _ | _ | n
  · injection (hgo : some (HObj.dict [("issues", HVal.ref 1)]) = some o) with he
    subst he
    intro p hp
    fin_cases hp
    exact show (1:Nat) < 3 by omega
  · injection (hgo : some (HObj.list [HVal.ref 2]) = some o) with he
    subst he
    intro v hv
    fin_cases hv
    exact show (2:Nat) < 3 by omega
  · injection (hgo : some (HObj.dict
        [("summary", HVal.str "i1"), ("status", HVal.str "resolved")]) = some o) with he
    subst he
    intro p hp
    fin_cases hp
    · trivial
    · trivial
  · exact absurd ha (by omega)

/-- The witness merge: the result of merging the disjoint delta above. -/
def mergeW : Heap × Nat :=
  (mergeDeltaH 30 h0w (.ref 0) (.ref 3) 5 "2026-01-01 00:00:00 UTC").get
    (by rfl)

/-- C10 witness: the amended theorem at the concrete disjoint heap — the
old snapshot's readback is untouched and the returned snapshot is not
one of its objects. -/
theorem mergeDelta_frame_preserves_old_witness :
    readVal 30 mergeW.1 (.ref 0) = readVal 30 h0w (.ref 0) ∧
    ¬ (mergeW.2 < 3) := by
  have h := mergeDelta_frame_preserves_old 30 h0w (fun a => a < 3)
    (.ref 0) (.ref 3) 5 "2026-01-01 00:00:00 UTC" mergeW.1 mergeW.2
    (fun a ha => show a < 7 by omega)
    h0w_sep h0w_closed
    (show (0:Nat) < 3 by omega)
    (show ¬ ((3:Nat) < 3) by omega)
    ((Option.some_get (show (mergeDeltaH 30 h0w (.ref 0) (.ref 3) 5
        "2026-01-01 00:00:00 UTC").isSome from by rfl)).symm)
  exact ⟨h.1 30, h.2⟩

end Awakener
